import Mathlib

/-!
Verification development for the workflow orchestration engine
(`workflow_engine`): a shallow embedding, in Lean 4, of the DSL schema
validation, the dependency-driven scheduler, the saga compensation engine,
the activity dispatch registry, the duration parser, the template
substitution and the workflow state machine, together with theorems
checking the natural-language specification against the code.

Python sources embedded here:
  - workflow_engine/core/state_machine.py
  - workflow_engine/core/task_executor.py
  - workflow_engine/core/workflows.py
  - workflow_engine/dsl/schema.py
  - workflow_engine/dsl/validator.py
-/

deriving instance DecidableEq for Except

namespace WorkflowEngine

/-! ## State machine (`core/state_machine.py`) -/

/-- `WorkflowState` enum from `state_machine.py`. -/
inductive WorkflowState where
  | PENDING
  | RUNNING
  | COMPLETED
  | FAILED
  | CANCELLED
deriving DecidableEq, Repr

open WorkflowState

/-- `WorkflowStateMachine.VALID_TRANSITIONS` from `state_machine.py`. -/
def VALID_TRANSITIONS : WorkflowState → List WorkflowState
  | PENDING => [RUNNING, CANCELLED]
  | RUNNING => [COMPLETED, FAILED, CANCELLED]
  | COMPLETED => []                 -- Terminal state
  | FAILED => [RUNNING]             -- Can retry
  | CANCELLED => []                 -- Terminal state

/-- `StateTransition` from `state_machine.py`.  The wall-clock
`datetime.utcnow()` timestamp is modelled as an abstract `Nat` supplied by
the caller at transition time. -/
structure StateTransition where
  from_state : WorkflowState
  to_state : WorkflowState
  timestamp : Nat
deriving DecidableEq, Repr

/-- `WorkflowStateMachine`: current state plus the append-only transition
history. -/
structure WorkflowStateMachine where
  current_state : WorkflowState
  transitions : List StateTransition
deriving DecidableEq, Repr

/-- `WorkflowStateMachine.__init__` (default initial state is `PENDING`). -/
def WorkflowStateMachine.init (initial_state : WorkflowState := PENDING) :
    WorkflowStateMachine :=
  { current_state := initial_state, transitions := [] }

/-- `WorkflowStateMachine.can_transition`. -/
def WorkflowStateMachine.can_transition (m : WorkflowStateMachine)
    (to_state : WorkflowState) : Bool :=
  to_state ∈ VALID_TRANSITIONS m.current_state

/-- `WorkflowStateMachine.transition`: returns the bool result together
with the (possibly unchanged) machine; `now` models `datetime.utcnow()`. -/
def WorkflowStateMachine.transition (m : WorkflowStateMachine)
    (to_state : WorkflowState) (now : Nat) : Bool × WorkflowStateMachine :=
  if ¬ m.can_transition to_state then
    (false, m)
  else
    (true,
     { current_state := to_state,
       transitions :=
         m.transitions ++ [⟨m.current_state, to_state, now⟩] })

/-- `WorkflowStateMachine.get_transitions` (the defensive `.copy()` is the
identity on immutable lists). -/
def WorkflowStateMachine.get_transitions (m : WorkflowStateMachine) :
    List StateTransition :=
  m.transitions

/-- Apply a sequence of `transition` calls, each given as a target state
paired with the clock value observed at that call. -/
def WorkflowStateMachine.applyCalls (m : WorkflowStateMachine)
    (calls : List (WorkflowState × Nat)) : WorkflowStateMachine :=
  calls.foldl (fun acc c => (acc.transition c.1 c.2).2) m

/-! ## Duration parsing (`core/task_executor.py`) -/

/-- Python whitespace characters recognised by `str.strip()` / `float()`
(ASCII fragment; exotic Unicode whitespace is not modelled). -/
def pyIsSpace (c : Char) : Bool :=
  c == ' ' || c == '\t' || c == '\n' || c == '\r' ||
  c == Char.ofNat 11 || c == Char.ofNat 12

/-- Python `str.strip()` on a character list. -/
def pyStripChars (l : List Char) : List Char :=
  ((l.dropWhile pyIsSpace).reverse.dropWhile pyIsSpace).reverse

/-- Decimal value of a digit run. -/
def digitsToNat (l : List Char) : Nat :=
  l.foldl (fun a c => a * 10 + (c.toNat - 48)) 0

/-- An exact (unreduced) rational `num / den` with `den` a power of ten:
the value of a parsed Python numeric literal.  Kept in `Int`/`Nat` form
so that concrete runs reduce inside the kernel; `PyNum.toRat` gives the
mathematical value. -/
structure PyNum where
  num : Int
  den : Nat
deriving DecidableEq, Repr

/-- The rational value of a `PyNum`. -/
def PyNum.toRat (p : PyNum) : ℚ := (p.num : ℚ) / (p.den : ℚ)

/-- Multiply a `PyNum` by a natural scale factor (seconds per unit). -/
def PyNum.scale (p : PyNum) (k : Nat) : PyNum := ⟨p.num * k, p.den⟩

/-- Python's `float()` string conversion, exactly: optional surrounding
whitespace, optional sign, a mantissa `digits [. digits]` / `. digits`,
and an optional `e`/`E` exponent, with the whole string consumed.
(`inf`/`nan` literals and `_` digit separators are not modelled; values
are exact rationals rather than IEEE-rounded doubles.)  Returns `none`
where `float()` raises `ValueError`. -/
def pyFloat (cs : List Char) : Option PyNum :=
  let cs := pyStripChars cs
  let signAndRest : Int × List Char :=
    match cs with
    | '+' :: r => (1, r)
    | '-' :: r => (-1, r)
    | r => (1, r)
  let sign := signAndRest.1
  let cs := signAndRest.2
  let ipart := cs.takeWhile Char.isDigit
  let cs := cs.dropWhile Char.isDigit
  let fracAndRest : List Char × List Char :=
    match cs with
    | '.' :: r => (r.takeWhile Char.isDigit, r.dropWhile Char.isDigit)
    | r => ([], r)
  let fpart := fracAndRest.1
  let cs := fracAndRest.2
  if ipart.isEmpty && fpart.isEmpty then none
  else
    let num : Int := sign * (digitsToNat (ipart ++ fpart) : Int)
    let den : Nat := 10 ^ fpart.length
    match cs with
    | 'e' :: r | 'E' :: r =>
      let negAndRest : Bool × List Char :=
        match r with
        | '+' :: r2 => (false, r2)
        | '-' :: r2 => (true, r2)
        | r2 => (false, r2)
      let edigits := negAndRest.2.takeWhile Char.isDigit
      let rest := negAndRest.2.dropWhile Char.isDigit
      if edigits.isEmpty || !rest.isEmpty then none
      else if negAndRest.1 then some ⟨num, den * 10 ^ digitsToNat edigits⟩
      else some ⟨num * (10 ^ digitsToNat edigits : Nat), den⟩
    | [] => some ⟨num, den⟩
    | _ => none

/-- `parse_duration` from `core/task_executor.py`.  A `timedelta` is
modelled by its total number of seconds, an exact rational kept in
`PyNum` form; raised `ValueError`s become `Except.error` with the
Python message. -/
def parse_duration (s : String) : Except String PyNum :=
  if s.isEmpty then .error "Duration string cannot be empty"
  else
    let cs := s.toList
    let unit := cs.getLastD ' '
    match pyFloat cs.dropLast with
    | none =>
      .error ("could not convert string to float: \x27"
        ++ String.mk cs.dropLast ++ "\x27")
    | some value =>
      if unit = 's' then .ok value
      else if unit = 'm' then .ok (value.scale 60)
      else if unit = 'h' then .ok (value.scale 3600)
      else .error ("Invalid duration unit: " ++ String.mk [unit]
        ++ ". Use s, m, or h")

/-- `parse_duration` with the result read off as rational seconds. -/
def parse_duration_q (s : String) : Except String ℚ :=
  (parse_duration s).map PyNum.toRat

/-! ## Loosely-typed configuration values and template substitution
(`core/workflows.py`, `_substitute_templates`) -/

/-- A JSON-ish Python value as found in task `config` dictionaries and
workflow parameters: string, integer, boolean, `None`, list or dict.
(Python floats are not modelled; no claim depends on them.) -/
inductive Value where
  | str (s : String)
  | int (n : Int)
  | bool (b : Bool)
  | null
  | list (xs : List Value)
  | obj (kvs : List (String × Value))
deriving Repr

mutual

/-- Python `repr()` of a `Value`, as used by `str()` on containers.
(Escaping of quotes/backslashes inside string literals is not modelled.) -/
def pyRepr : Value → String
  | .str s => "\x27" ++ s ++ "\x27"
  | .int n => toString n
  | .bool b => if b then "True" else "False"
  | .null => "None"
  | .list xs => "[" ++ String.intercalate ", " (pyReprList xs) ++ "]"
  | .obj kvs => "\x7b" ++ String.intercalate ", " (pyReprObj kvs) ++ "\x7d"

/-- `repr()` of each element of a Python list. -/
def pyReprList : List Value → List String
  | [] => []
  | v :: r => pyRepr v :: pyReprList r

/-- `repr()` of each `key: value` entry of a Python dict. -/
def pyReprObj : List (String × Value) → List String
  | [] => []
  | (k, v) :: r => ("\x27" ++ k ++ "\x27: " ++ pyRepr v) :: pyReprObj r

end

/-- The stringification applied by `replace_template` in
`_substitute_templates`: `str(param_value).lower()` for booleans,
`str(param_value)` otherwise. -/
def pyStrOfValue : Value → String
  | .bool b => if b then "true" else "false"
  | .int n => toString n
  | .str s => s
  | v => pyRepr v

/-- The `\x7b` character. -/
def lbrace : Char := Char.ofNat 123

/-- The `\x7d` character. -/
def rbrace : Char := Char.ofNat 125

/-- The inner `replace_template` function of `_substitute_templates`:
given the raw text `w` matched between the double braces, strip it, look
it up among the workflow parameters, and return either the stringified
parameter value or the entire match (`match.group(0)`) verbatim. -/
def replace_template (parameters : List (String × Value)) (w : List Char) :
    List Char :=
  let name := String.mk (pyStripChars w)
  match parameters.lookup name with
  | some v => (pyStrOfValue v).toList
  | none => lbrace :: lbrace :: (w ++ [rbrace, rbrace])

/-- `re.sub` with pattern `\x7b\x7b\s*([^\x7d]+)\s*\x7d\x7d` over a string,
replacing each non-overlapping leftmost match via `replace_template`: a
match is two open braces, a nonempty run of non-close-brace characters,
then two close braces. -/
def substChars (parameters : List (String × Value)) : List Char → List Char
  | [] => []
  | [c] => [c]
  | c₁ :: c₂ :: rest =>
    if c₁ = lbrace ∧ c₂ = lbrace then
      if rest.takeWhile (fun c => c ≠ rbrace) ≠ [] ∧
          (rest.drop (rest.takeWhile (fun c => c ≠ rbrace)).length).take 2
            = [rbrace, rbrace] then
        replace_template parameters (rest.takeWhile (fun c => c ≠ rbrace)) ++
          substChars parameters
            ((rest.drop (rest.takeWhile (fun c => c ≠ rbrace)).length).drop 2)
      else
        c₁ :: substChars parameters (c₂ :: rest)
    else
      c₁ :: substChars parameters (c₂ :: rest)
termination_by l => l.length
decreasing_by
  · simp only [List.length_cons, List.length_drop]
    omega
  · simp only [List.length_cons]; omega
  · simp only [List.length_cons]; omega

/-- `_substitute_templates`: recursively walk a config value, rewriting
every string through `substChars` and every dict/list entrywise;
non-string leaves pass through. -/
def substituteTemplates (parameters : List (String × Value)) : Value → Value
  | .obj kvs => .obj (kvs.attach.map
      (fun kv => (kv.1.1, substituteTemplates parameters kv.1.2)))
  | .list xs => .list (xs.attach.map
      (fun x => substituteTemplates parameters x.1))
  | .str s => .str (String.mk (substChars parameters s.toList))
  | .int n => .int n
  | .bool b => .bool b
  | .null => .null
decreasing_by
  · obtain ⟨⟨k, v⟩, hv⟩ := kv
    have := List.sizeOf_lt_of_mem hv
    simp_all
    omega
  · obtain ⟨v, hv⟩ := x
    have := List.sizeOf_lt_of_mem hv
    simp_all
    omega

/-! ## DSL schema (`dsl/schema.py`) -/

/-- `ParameterType` enum. -/
inductive ParameterType where
  | string | integer | float | boolean | object | array
deriving DecidableEq, Repr

/-- `Parameter` model. -/
structure Parameter where
  name : String
  type : ParameterType
  required : Bool := true
  default : Option Value := none
  description : Option String := none

/-- `RetryPolicy` model (DSL side). -/
structure RetryPolicy where
  max_attempts : Nat := 3
  initial_interval : String := "1s"
  max_interval : String := "30s"
  multiplier : ℚ := 2

/-- Modelled from the spec: the `Compensation` class is referenced by
`core/workflows.py` and the unit tests as an import from
`dsl/schema.py`, but its declaration is missing from the copy of
`schema.py` under review.  Per the spec it has the same shape as a
task's executable core — `activity_type`, `config`, `retry?`,
`timeout?` — and no `id` of its own. -/
structure Compensation where
  activity_type : String
  config : List (String × Value) := []
  retry : Option RetryPolicy := none
  timeout : Option String := none

/-- `Task` model.  The `compensation` field is likewise modelled from the
spec (`compensation: Compensation?`): it is read by
`core/workflows.py` (`task.compensation`) and set by the unit tests,
but absent from the reviewed copy of `schema.py`. -/
structure Task where
  id : String
  name : String
  type : String := "activity"
  activity_type : String
  config : List (String × Value) := []
  depends_on : Option (List String) := none
  retry : Option RetryPolicy := none
  timeout : Option String := none
  compensation : Option Compensation := none

/-- `WorkflowDefinition` model (the `version` coercion from numeric YAML
scalars happens before this representation). -/
structure WorkflowDefinition where
  name : String
  version : String := "1.0"
  description : Option String := none
  parameters : List Parameter := []
  tasks : List Task

/-- Python `set.add` on an insertion-ordered duplicate-free list. -/
def pySetAdd (l : List String) (x : String) : List String :=
  if l.contains x then l else l ++ [x]

/-- Python `set(xs)` (cardinality and membership are what matter). -/
def pySetOfList (xs : List String) : List String :=
  xs.foldl pySetAdd []

/-- The dependency-existence and self-dependency checks of
`WorkflowDefinition.validate_tasks`, for one task's `depends_on` list;
the first offending entry raises. -/
def checkDepList (task_ids : List String) (tid : String) :
    List String → Except String Unit
  | [] => .ok ()
  | d :: ds =>
    if ¬ task_ids.contains d then
      .error ("Task \x27" ++ tid ++ "\x27 depends on unknown task \x27"
        ++ d ++ "\x27")
    else if d = tid then
      .error ("Task \x27" ++ tid ++ "\x27 cannot depend on itself")
    else checkDepList task_ids tid ds

/-- The per-task dependency validation loop of `validate_tasks`. -/
def checkTaskDeps (task_ids : List String) : List Task → Except String Unit
  | [] => .ok ()
  | t :: rest =>
    match checkDepList task_ids t.id (t.depends_on.getD []) with
    | .error e => .error e
    | .ok _ => checkTaskDeps task_ids rest

/-- The adjacency map built by `validate_tasks`
(`graph[task.id] = task.depends_on` when truthy, else `[]`). -/
def adjOf (tasks : List Task) (v : String) : List String :=
  match tasks.find? (fun t => t.id = v) with
  | some t =>
    match t.depends_on with
    | some deps => if deps.isEmpty then [] else deps
    | none => []
  | none => []

/-- The `for neighbor in graph.get(node, [])` loop of `has_cycle`:
`next` is the recursive `has_cycle` call one fuel level down. -/
def dfsNeighbors
    (next : String → List String → List String → Bool × List String) :
    List String → String → List String → List String → Bool × List String
  | [], _, visited, _ => (false, visited)
  | n :: ns, v, visited, stack =>
    if ¬ visited.contains n then
      match next n visited stack with
      | (true, vis) => (true, vis)
      | (false, vis) => dfsNeighbors next ns v vis stack
    else if stack.contains n then (true, visited)
    else dfsNeighbors next ns v visited stack

/-- The recursive `has_cycle(node)` of `validate_tasks`: mark the node
visited, push it on the recursion stack, and scan its neighbours.  The
mutable `visited` set is threaded through; the recursion stack is a
downward parameter (it is restored whenever `has_cycle` returns
`False`, and abandoned on `True` because the caller raises).  `fuel`
bounds the recursion depth; every call site supplies more fuel than
there are graph nodes, so the `0` case is unreachable. -/
def dfsVisit (adj : String → List String) :
    Nat → String → List String → List String → Bool × List String
  | 0, _, visited, _ => (false, visited)
  | fuel + 1, v, visited, stack =>
    dfsNeighbors (dfsVisit adj fuel) (adj v) v (v :: visited) (v :: stack)

/-- The outer `for task_id in task_ids` loop of `validate_tasks`:
runs `has_cycle` from every not-yet-visited root and reports the first
root whose traversal finds a cycle. -/
def detectCycleLoop (adj : String → List String) (fuel : Nat) :
    List String → List String → Option String
  | [], _ => none
  | r :: rest, visited =>
    if ¬ visited.contains r then
      match dfsVisit adj fuel r visited [] with
      | (true, _) => some r
      | (false, vis) => detectCycleLoop adj fuel rest vis
    else detectCycleLoop adj fuel rest visited

/-- All node names mentioned by the adjacency structure (task IDs and
dependency targets); used only to size the DFS fuel. -/
def nodesOf (tasks : List Task) : List String :=
  tasks.map (·.id) ++ (tasks.map (fun t => t.depends_on.getD [])).flatten

/-- `WorkflowDefinition.validate_tasks` (the pydantic `tasks` field
validator, run at admission/parse time): duplicate-ID check, dependency
existence/self checks, then DFS cycle detection.  `idIterOrder` models
Python's unordered iteration over the `task_ids` set: theorems
hypothesise that it enumerates the task IDs. -/
def validate_tasks (tasks : List Task) (idIterOrder : List String) :
    Except String Unit :=
  let task_ids := pySetOfList (tasks.map (·.id))
  if task_ids.length ≠ tasks.length then .error "Duplicate task IDs found"
  else
    match checkTaskDeps task_ids tasks with
    | .error e => .error e
    | .ok _ =>
      match detectCycleLoop (adjOf tasks) ((nodesOf tasks).length + 1)
          idIterOrder [] with
      | some r =>
        .error ("Circular dependency detected in task \x27" ++ r ++ "\x27")
      | none => .ok ()

/-! ## Validator (`dsl/validator.py`) -/

/-- Python `s.strip()` on a `String`. -/
def stripStr (s : String) : String :=
  String.mk (pyStripChars s.toList)

/-- `WorkflowValidator._validate_task`. -/
def _validate_task (task : Task) (all_tasks : List Task) : List String :=
  let e1 :=
    if task.id.isEmpty || (stripStr task.id).isEmpty then
      ["Task ID is required"] else []
  let e2 :=
    if task.name.isEmpty || (stripStr task.name).isEmpty then
      ["Task name is required"] else []
  let e3 :=
    if task.type = "activity" ∧ task.activity_type.isEmpty then
      ["Activity type is required for activity tasks"] else []
  let task_ids := all_tasks.map (·.id)
  let e4 :=
    ((task.depends_on.getD []).map (fun d =>
      (if ¬ task_ids.contains d then
        ["Dependency \x27" ++ d ++ "\x27 does not exist"] else []) ++
      (if d = task.id then ["Task cannot depend on itself"] else []))).flatten
  e1 ++ e2 ++ e3 ++ e4

namespace WorkflowValidator

/-- `WorkflowValidator.validate`: the non-throwing validation used by the
API; returns the list of error strings (empty when valid).  Note it
performs no cycle detection. -/
def validate (wf : WorkflowDefinition) : List String :=
  let e1 :=
    if wf.name.isEmpty || (stripStr wf.name).isEmpty then
      ["Workflow name is required"] else []
  let e2 := if wf.version.isEmpty then ["Workflow version is required"] else []
  if wf.tasks.isEmpty then
    e1 ++ e2 ++ ["Workflow must have at least one task"]
  else
    let e3 :=
      if (pySetOfList (wf.tasks.map (·.id))).length ≠ wf.tasks.length then
        ["Task IDs must be unique"] else []
    let e4 :=
      (wf.tasks.map (fun t =>
        (_validate_task t wf.tasks).map
          (fun e => "Task \x27" ++ t.id ++ "\x27: " ++ e))).flatten
    let e5 :=
      if (pySetOfList (wf.parameters.map (·.name))).length
          ≠ wf.parameters.length then
        ["Parameter names must be unique"] else []
    e1 ++ e2 ++ e3 ++ e4 ++ e5

/-- `WorkflowValidator.is_valid`. -/
def is_valid (wf : WorkflowDefinition) : Bool :=
  (validate wf).length = 0

end WorkflowValidator

/-! ## Activity dispatch registry (`core/task_executor.py`) -/

/-- Python dict assignment `d[k] = v` on an insertion-ordered
association list: replace in place or append. -/
def dictSet {β : Type} : List (String × β) → String → β → List (String × β)
  | [], k, v => [(k, v)]
  | (k', v') :: rest, k, v =>
    if k' = k then (k, v) :: rest else (k', v') :: dictSet rest k v

/-- `ActivityRegistry`: handlers are abstracted by a type `α`. -/
structure ActivityRegistry (α : Type) where
  _activities : List (String × α) := []
  _temporal_activities : List α := []

/-- `ActivityRegistry.register`. -/
def ActivityRegistry.register {α : Type} [DecidableEq α]
    (r : ActivityRegistry α) (activity_type : String) (activity_func : α) :
    ActivityRegistry α :=
  { _activities := dictSet r._activities activity_type activity_func,
    _temporal_activities :=
      if activity_func ∈ r._temporal_activities then r._temporal_activities
      else r._temporal_activities ++ [activity_func] }

/-- `ActivityRegistry.get`: the raised `KeyError` becomes `Except.error`. -/
def ActivityRegistry.get {α : Type} (r : ActivityRegistry α)
    (activity_type : String) : Except String α :=
  match r._activities.lookup activity_type with
  | none =>
    .error ("Activity type \x27" ++ activity_type
      ++ "\x27 not found in registry")
  | some f => .ok f

/-- `ActivityRegistry.has`. -/
def ActivityRegistry.has {α : Type} (r : ActivityRegistry α)
    (activity_type : String) : Bool :=
  (r._activities.lookup activity_type).isSome

/-! ## Workflow engine (`core/workflows.py`) -/

/-- How `_execute_task_with_retry` dispatches a task: through the
registered handler when `activity_registry.has(...)`, otherwise falling
back to the raw activity-type string for the substrate to resolve. -/
inductive DispatchTarget (α : Type) where
  | fn (f : α)
  | byName (s : String)
deriving DecidableEq, Repr

/-- The dispatch choice of `_execute_task_with_retry`
(`if activity_registry.has(task.activity_type): ... else: ...`). -/
def chooseDispatch {α : Type} (reg : ActivityRegistry α) (t : Task) :
    DispatchTarget α :=
  match reg._activities.lookup t.activity_type with
  | some f => .fn f
  | none => .byName t.activity_type

/-- `_substitute_templates` applied to a task's `config` dict. -/
def substConfig (parameters : List (String × Value))
    (config : List (String × Value)) : List (String × Value) :=
  config.map (fun kv => (kv.1, substituteTemplates parameters kv.2))

/-- The activity argument map built by `_execute_task_with_retry`
(substituted config plus `task_id` and, when the Temporal workflow ID
carries one, `workflow_execution_id`). -/
def activityArgs (t : Task) (parameters : List (String × Value))
    (execId : Option String) : List (String × Value) :=
  let base := if t.config.isEmpty then [] else substConfig parameters t.config
  let base := dictSet base "task_id" (.str t.id)
  match execId with
  | some e => dictSet base "workflow_execution_id" (.str e)
  | none => base

/-- Temporal's `RetryPolicy` as constructed by
`_execute_task_with_retry`; intervals in seconds. -/
structure TemporalRetryPolicy where
  initial_interval : ℚ
  backoff_coefficient : ℚ
  maximum_interval : ℚ
  maximum_attempts : Nat
deriving Repr

/-- The timeout computation of `_execute_task_with_retry`: default 1 hour,
overridden by `parse_duration(task.timeout)` when `task.timeout` is
truthy. -/
def taskTimeout (t : Task) : Except String ℚ :=
  match t.timeout with
  | some s => if s.isEmpty then .ok 3600 else parse_duration_q s
  | none => .ok 3600

/-- The retry-policy translation of `_execute_task_with_retry`. -/
def taskRetryPolicy (t : Task) : Except String (Option TemporalRetryPolicy) :=
  match t.retry with
  | none => .ok none
  | some r =>
    match parse_duration_q r.initial_interval with
    | .error e => .error e
    | .ok i =>
      match parse_duration_q r.max_interval with
      | .error e => .error e
      | .ok mx => .ok (some ⟨i, r.multiplier, mx, r.max_attempts⟩)

/-- `_execute_task_with_retry`: build the argument map, timeout and retry
policy, then hand the chosen dispatch target to the substrate
(`workflow.execute_activity`), whose behaviour is abstracted by
`substrate`. -/
def execute_task_with_retry {α : Type} (reg : ActivityRegistry α)
    (substrate : DispatchTarget α → List (String × Value) → ℚ →
      Option TemporalRetryPolicy → Except String Value)
    (parameters : List (String × Value)) (execId : Option String)
    (t : Task) : Except String Value :=
  let args := activityArgs t parameters execId
  match taskTimeout t with
  | .error e => .error e
  | .ok timeout =>
    match taskRetryPolicy t with
    | .error e => .error e
    | .ok rp => substrate (chooseDispatch reg t) args timeout rp

/-- The compensation argument map built by `_execute_compensation`:
the compensation's config plus the owning task's ID (as both `task_id`
and `original_task_id`), the full `task_results` map and the workflow
parameters. -/
def compensationArgs (t : Task) (comp : Compensation)
    (task_results : List (String × Value))
    (parameters : List (String × Value)) (execId : Option String) :
    List (String × Value) :=
  let a := comp.config
  let a := dictSet a "task_id" (.str t.id)
  let a := dictSet a "original_task_id" (.str t.id)
  let a := dictSet a "task_results" (.obj task_results)
  let a := dictSet a "workflow_parameters" (.obj parameters)
  match execId with
  | some e => dictSet a "workflow_execution_id" (.str e)
  | none => a

/-- Execution-time state owned by one `WorkflowEngineWorkflow.run`
(`task_results`, `failed_tasks`, `completed_tasks_order` plus the local
`completed_task_ids` set of the scheduling loop). -/
structure RunState where
  task_results : List (String × Value) := []
  failed_tasks : List (String × String) := []
  completed_tasks_order : List String := []
  completed_task_ids : List String := []

/-- The dependency test of `_get_ready_tasks`
(`not task.depends_on or all(dep in completed for dep in task.depends_on)`). -/
def depsSatisfied (t : Task) (completed : List String) : Bool :=
  match t.depends_on with
  | none => true
  | some deps => deps.isEmpty || deps.all (fun d => completed.contains d)

/-- `_get_ready_tasks`. -/
def _get_ready_tasks (tasks : List Task) (completed : List String) :
    List Task :=
  match tasks with
  | [] => []
  | t :: rest =>
    if completed.contains t.id then _get_ready_tasks rest completed
    else if depsSatisfied t completed then t :: _get_ready_tasks rest completed
    else _get_ready_tasks rest completed

/-- Python `repr()` of a list of strings, as interpolated into the
blocked-workflow error message. -/
def pyListReprStr (l : List String) : String :=
  "[" ++ String.intercalate ", "
    (l.map (fun s => "\x27" ++ s ++ "\x27")) ++ "]"

/-- The `for task, result in zip(tasks_to_run, results)` loop of the
parallel branch of `run`: merge successes in order until the first
exception, which is recorded in `failed_tasks` and raised (aborting the
loop, so later batch members are not processed). -/
def processBatch : List (Task × Except String Value) → RunState →
    RunState × Option String
  | [], st => (st, none)
  | (t, .error m) :: _, st =>
    ({ st with failed_tasks := dictSet st.failed_tasks t.id m },
     some ("Task \x27" ++ t.id ++ "\x27 failed: " ++ m))
  | (t, .ok v) :: rest, st =>
    processBatch rest
      { st with
        task_results := dictSet st.task_results t.id v,
        completed_task_ids := pySetAdd st.completed_task_ids t.id,
        completed_tasks_order := st.completed_tasks_order ++ [t.id] }

/-- The main `while len(completed_task_ids) < len(all_task_ids)` loop of
`WorkflowEngineWorkflow.run`.  `exec` abstracts
`_execute_task_with_retry`; the second component of the result is the
raised exception's message, `none` meaning the loop finished without
raising.  `fuel` exceeds the number of tasks at every call site, and
every iteration either returns or completes at least one task, so the
`0` case is unreachable.  (Python iterates the `remaining` *set* when
building `failed_remaining`, so the blocked-workflow message lists IDs
in an unspecified order; here insertion order is used.) -/
def runLoop (exec : Task → Except String Value) (tasks : List Task) :
    Nat → RunState → RunState × Option String
  | 0, st => (st, none)
  | fuel + 1, st =>
    let all_task_ids := pySetOfList (tasks.map (·.id))
    if st.completed_task_ids.length < all_task_ids.length then
      match _get_ready_tasks tasks st.completed_task_ids with
      | [] =>
        let remaining := all_task_ids.filter
          (fun tid => ¬ st.completed_task_ids.contains tid)
        let failed_remaining := remaining.filter
          (fun tid => (st.failed_tasks.lookup tid).isSome)
        if ¬ remaining.isEmpty ∧ ¬ failed_remaining.isEmpty then
          (st, some ("Workflow failed: tasks " ++ pyListReprStr failed_remaining
            ++ " failed and cannot proceed"))
        else (st, none)
      | [t] =>
        match exec t with
        | .error m => (st, some m)
        | .ok v =>
          runLoop exec tasks fuel
            { st with
              task_results := dictSet st.task_results t.id v,
              completed_task_ids := pySetAdd st.completed_task_ids t.id,
              completed_tasks_order := st.completed_tasks_order ++ [t.id] }
      | ready =>
        match processBatch (ready.map (fun t => (t, exec t))) st with
        | (st2, some m) => (st2, some m)
        | (st2, none) => runLoop exec tasks fuel st2
    else (st, none)

/-- `self.task_definitions` as filled at the start of `run`. -/
def taskDefinitions (tasks : List Task) : List (String × Task) :=
  tasks.foldl (fun m t => dictSet m t.id t) []

/-- The `for task_id in reversed(self.completed_tasks_order)` loop of
`_run_compensations`, returning the IDs of the tasks whose compensation
was dispatched, in execution order.  `compOutcome` abstracts
`_execute_compensation`'s dispatch outcome; both its success and its
failure fall through to the remaining compensations (the failure is
logged by the `try`/`except` and swallowed). -/
def compensationLoop (compOutcome : Task → Except String Unit)
    (defs : List (String × Task)) : List String → List String
  | [] => []
  | tid :: rest =>
    match defs.lookup tid with
    | none => compensationLoop compOutcome defs rest
    | some t =>
      match t.compensation with
      | none => compensationLoop compOutcome defs rest
      | some _ =>
        match compOutcome t with
        | .ok _ => tid :: compensationLoop compOutcome defs rest
        | .error _ => tid :: compensationLoop compOutcome defs rest

/-- `_run_compensations`. -/
def _run_compensations (compOutcome : Task → Except String Unit)
    (defs : List (String × Task)) (completed_tasks_order : List String) :
    List String :=
  if completed_tasks_order.isEmpty then []
  else compensationLoop compOutcome defs completed_tasks_order.reverse

/-- The observable outcome of one `WorkflowEngineWorkflow.run`: the final
execution-time state, the compensations attempted, and either the
success payload (`task_results`) or the re-raised error message. -/
structure RunResult where
  state : RunState
  compensation_attempts : List String
  result : Except String (List (String × Value))

/-- `WorkflowEngineWorkflow.run`: snapshot the task definitions, drive the
scheduling loop, and on any raised error run the compensations and
re-raise the same error. -/
def runWorkflow (exec : Task → Except String Value)
    (compOutcome : Task → Except String Unit) (wf : WorkflowDefinition) :
    RunResult :=
  let defs := taskDefinitions wf.tasks
  let out := runLoop exec wf.tasks (wf.tasks.length + 1) {}
  match out.2 with
  | none => ⟨out.1, [], .ok out.1.task_results⟩
  | some e =>
    ⟨out.1, _run_compensations compOutcome defs out.1.completed_tasks_order,
     .error e⟩

/-! ## State-machine invariants and theorems -/

/-- A transition history chains from `s`: each record starts where its
predecessor ended and is an edge of `VALID_TRANSITIONS`. -/
def chainOk (s : WorkflowState) : List StateTransition → Prop
  | [] => True
  | t :: rest =>
    t.from_state = s ∧ t.to_state ∈ VALID_TRANSITIONS t.from_state
      ∧ chainOk t.to_state rest

/-- The end state of a history starting at `s`. -/
def lastTo (s : WorkflowState) (l : List StateTransition) : WorkflowState :=
  (l.getLast?.map (·.to_state)).getD s

theorem chainOk_append_one {s : WorkflowState} {l : List StateTransition}
    {x : StateTransition} (hc : chainOk s l) (hf : x.from_state = lastTo s l)
    (hv : x.to_state ∈ VALID_TRANSITIONS x.from_state) :
    chainOk s (l ++ [x]) := by
  induction l generalizing s with
  | nil => exact ⟨hf, hv, trivial⟩
  | cons t rest ih =>
    obtain ⟨h1, h2, h3⟩ := hc
    refine ⟨h1, h2, ih h3 ?_ ⟩
    cases rest with
    | nil => simpa [lastTo] using hf
    | cons u r => simpa [lastTo] using hf

theorem lastTo_append_one (s : WorkflowState) (l : List StateTransition)
    (x : StateTransition) : lastTo s (l ++ [x]) = x.to_state := by
  simp [lastTo]

/-- The run invariant of the state machine: the history chains from the
initial state and the current state is the history's end state. -/
def machineInv (s : WorkflowState) (m : WorkflowStateMachine) : Prop :=
  chainOk s m.transitions ∧ m.current_state = lastTo s m.transitions

theorem machineInv_transition {s : WorkflowState} {m : WorkflowStateMachine}
    (h : machineInv s m) (to_state : WorkflowState) (now : Nat) :
    machineInv s (m.transition to_state now).2 := by
  obtain ⟨hc, hcur⟩ := h
  unfold WorkflowStateMachine.transition
  by_cases hcan : m.can_transition to_state
  · simp only [hcan, not_true_eq_false, if_neg, ite_false]
    refine ⟨chainOk_append_one hc hcur ?_, ?_⟩
    · have : to_state ∈ VALID_TRANSITIONS m.current_state := by
        simpa [WorkflowStateMachine.can_transition] using hcan
      simpa using this
    · simp [lastTo_append_one]
  · simp only [hcan, not_false_eq_true, if_pos]
    exact ⟨hc, hcur⟩

theorem machineInv_applyCalls (s : WorkflowState) (m : WorkflowStateMachine)
    (h : machineInv s m) (calls : List (WorkflowState × Nat)) :
    machineInv s (m.applyCalls calls) := by
  induction calls generalizing m with
  | nil => exact h
  | cons c rest ih =>
    exact ih _ (machineInv_transition h c.1 c.2)

theorem chainOk_head {s : WorkflowState} {l : List StateTransition}
    (hc : chainOk s l) (h : l ≠ []) : (l.head h).from_state = s := by
  cases l with
  | nil => exact absurd rfl h
  | cons t rest => exact hc.1

theorem chainOk_mem_valid {s : WorkflowState} {l : List StateTransition}
    (hc : chainOk s l) :
    ∀ t ∈ l, t.to_state ∈ VALID_TRANSITIONS t.from_state := by
  induction l generalizing s with
  | nil => intro t ht; cases ht
  | cons u rest ih =>
    intro t ht
    obtain ⟨h1, h2, h3⟩ := hc
    rcases List.mem_cons.1 ht with rfl | hmem
    · exact h2
    · exact ih h3 t hmem

theorem chainOk_chain {s : WorkflowState} {l : List StateTransition}
    (hc : chainOk s l) :
    ∀ i (h : i + 1 < l.length),
      (l.get ⟨i + 1, h⟩).from_state =
      (l.get ⟨i, Nat.lt_of_succ_lt h⟩).to_state := by
  induction l generalizing s with
  | nil => intro i h; simp at h
  | cons u rest ih =>
    intro i h
    obtain ⟨h1, h2, h3⟩ := hc
    cases i with
    | zero =>
      cases rest with
      | nil => simp at h
      | cons w r => exact h3.1
    | succ j =>
      exact ih h3 j (by simpa using h)

/-- **C10**: for every `WorkflowStateMachine` and every sequence of
`transition` calls, the recorded history chains: the first record's
`from_state` is the machine's initial state, each subsequent record's
`from_state` equals the previous record's `to_state`, every recorded
`(from_state, to_state)` pair is an edge of `VALID_TRANSITIONS`, and
the current state equals the last record's `to_state` (or the initial
state when the history is empty). -/
theorem C10_history_chained (s₀ : WorkflowState)
    (calls : List (WorkflowState × Nat)) :
    (∀ h : ((WorkflowStateMachine.init s₀).applyCalls calls).transitions ≠ [],
      ((((WorkflowStateMachine.init s₀).applyCalls calls).transitions.head h)).from_state = s₀)
    ∧ (∀ i (h : i + 1 <
        ((WorkflowStateMachine.init s₀).applyCalls calls).transitions.length),
        (((WorkflowStateMachine.init s₀).applyCalls calls).transitions.get ⟨i + 1, h⟩).from_state =
        (((WorkflowStateMachine.init s₀).applyCalls calls).transitions.get
          ⟨i, Nat.lt_of_succ_lt h⟩).to_state)
    ∧ (∀ t ∈ ((WorkflowStateMachine.init s₀).applyCalls calls).transitions,
        t.to_state ∈ VALID_TRANSITIONS t.from_state)
    ∧ ((WorkflowStateMachine.init s₀).applyCalls calls).current_state =
        lastTo s₀ ((WorkflowStateMachine.init s₀).applyCalls calls).transitions := by
  have hinv0 : machineInv s₀ (WorkflowStateMachine.init s₀) := by
    refine ⟨?_, rfl⟩
    simp [WorkflowStateMachine.init, chainOk]
  have hinv : machineInv s₀ ((WorkflowStateMachine.init s₀).applyCalls calls) :=
    machineInv_applyCalls s₀ _ hinv0 calls
  exact ⟨chainOk_head hinv.1, chainOk_chain hinv.1,
    chainOk_mem_valid hinv.1, hinv.2⟩

/-- Witness for C10, at the concrete call sequence
`PENDING → RUNNING → COMPLETED`. -/
theorem C10_history_chained_witness :
    (((WorkflowStateMachine.init PENDING).applyCalls
        [(RUNNING, 0), (COMPLETED, 1)]).transitions.get ⟨1, by decide⟩).from_state =
    (((WorkflowStateMachine.init PENDING).applyCalls
        [(RUNNING, 0), (COMPLETED, 1)]).transitions.get ⟨0, by decide⟩).to_state :=
  (C10_history_chained PENDING [(RUNNING, 0), (COMPLETED, 1)]).2.1 0 (by decide)

/-- **C8**: `transition(to)` returns false and leaves the current state
unchanged whenever `to` is not in the current state's allowed set under
the table `PENDING→{RUNNING,CANCELLED}`,
`RUNNING→{COMPLETED,FAILED,CANCELLED}`, `COMPLETED→{}`,
`FAILED→{RUNNING}`, `CANCELLED→{}`; otherwise it appends a
`{from, to, timestamp}` record to the history and updates the current
state; in particular `PENDING→COMPLETED` is rejected (returns false,
state stays `PENDING`) while `PENDING→RUNNING→COMPLETED` succeeds and
yields a 2-entry transition history with matching from/to pairs. -/
theorem C8_transition_table :
    (VALID_TRANSITIONS PENDING = [RUNNING, CANCELLED]
      ∧ VALID_TRANSITIONS RUNNING = [COMPLETED, FAILED, CANCELLED]
      ∧ VALID_TRANSITIONS COMPLETED = []
      ∧ VALID_TRANSITIONS FAILED = [RUNNING]
      ∧ VALID_TRANSITIONS CANCELLED = [])
    ∧ (∀ (m : WorkflowStateMachine) (t : WorkflowState) (now : Nat),
        t ∉ VALID_TRANSITIONS m.current_state →
          m.transition t now = (false, m))
    ∧ (∀ (m : WorkflowStateMachine) (t : WorkflowState) (now : Nat),
        t ∈ VALID_TRANSITIONS m.current_state →
          m.transition t now =
            (true, ⟨t, m.transitions ++ [⟨m.current_state, t, now⟩]⟩))
    ∧ (WorkflowStateMachine.init PENDING).transition COMPLETED 0 =
        (false, WorkflowStateMachine.init PENDING)
    ∧ ((WorkflowStateMachine.init PENDING).transition RUNNING 0).1 = true
    ∧ ((((WorkflowStateMachine.init PENDING).transition RUNNING 0).2).transition
        COMPLETED 1).1 = true
    ∧ ((((WorkflowStateMachine.init PENDING).transition RUNNING 0).2).transition
        COMPLETED 1).2.get_transitions =
      [⟨PENDING, RUNNING, 0⟩, ⟨RUNNING, COMPLETED, 1⟩] := by
  refine ⟨⟨rfl, rfl, rfl, rfl, rfl⟩, ?_, ?_, by decide, by decide, by decide,
    by decide⟩
  · intro m t now h
    simp [WorkflowStateMachine.transition, WorkflowStateMachine.can_transition, h]
  · intro m t now h
    simp [WorkflowStateMachine.transition, WorkflowStateMachine.can_transition, h]

/-- Witness for C8: the rejected `PENDING→COMPLETED` transition, obtained
by applying the theorem's general clause at a concrete machine. -/
theorem C8_transition_table_witness :
    COMPLETED ∉ VALID_TRANSITIONS (WorkflowStateMachine.init PENDING).current_state
    ∧ (WorkflowStateMachine.init PENDING).transition COMPLETED 7 =
        (false, WorkflowStateMachine.init PENDING) :=
  ⟨by decide,
   C8_transition_table.2.1 (WorkflowStateMachine.init PENDING) COMPLETED 7
     (by decide)⟩

/-! ## Duration-parser theorems -/

/-- **C9**: `parse_duration` maps `"5s"` to 5 seconds, `"10m"` to 600
seconds, and `"1h"` to 3600 seconds, and fails for `"5x"`, for `""`,
and generally for any string that is empty, has no numeric prefix, or
whose trailing unit is not one of `s`, `m`, `h`. -/
theorem C9_parse_duration :
    parse_duration_q "5s" = .ok 5
    ∧ parse_duration_q "10m" = .ok 600
    ∧ parse_duration_q "1h" = .ok 3600
    ∧ (∃ e, parse_duration "5x" = .error e)
    ∧ (∃ e, parse_duration "" = .error e)
    ∧ (∀ s : String, s = "" → ∃ e, parse_duration s = .error e)
    ∧ (∀ s : String, pyFloat s.toList.dropLast = none →
        ∃ e, parse_duration s = .error e)
    ∧ (∀ s : String, s ≠ "" →
        s.toList.getLastD ' ' ∉ (['s', 'm', 'h'] : List Char) →
        ∃ e, parse_duration s = .error e) := by
  have h5s : parse_duration "5s" = .ok ⟨5, 1⟩ := by decide
  have h10m : parse_duration "10m" = .ok ⟨600, 1⟩ := by decide
  have h1h : parse_duration "1h" = .ok ⟨3600, 1⟩ := by decide
  have hval : ∀ n : Int, PyNum.toRat ⟨n, 1⟩ = (n : ℚ) := by
    intro n
    unfold PyNum.toRat
    norm_num
  refine ⟨?_, ?_, ?_, ⟨_, rfl⟩, ⟨_, rfl⟩, ?_, ?_, ?_⟩
  · rw [parse_duration_q, h5s]
    simp [Except.map, hval]
  · rw [parse_duration_q, h10m]
    simp [Except.map, hval]
  · rw [parse_duration_q, h1h]
    simp [Except.map, hval]
  · intro s h
    subst h
    exact ⟨_, rfl⟩
  · intro s h
    by_cases hs : s.isEmpty = true
    · exact ⟨"Duration string cannot be empty",
        by unfold parse_duration; rw [if_pos hs]⟩
    · refine ⟨"could not convert string to float: \x27"
        ++ String.mk s.toList.dropLast ++ "\x27", ?_⟩
      unfold parse_duration
      rw [if_neg hs]
      simp only [h]
  · intro s hne hmem
    have hs : ¬ s.isEmpty = true := by
      simpa [String.isEmpty_iff] using hne
    simp only [List.mem_cons, List.not_mem_nil, or_false, not_or] at hmem
    rw [List.getLastD_eq_getLast?] at hmem
    obtain ⟨h1, h2, h3⟩ := hmem
    cases hpf : pyFloat s.toList.dropLast with
    | none =>
      refine ⟨"could not convert string to float: \x27"
        ++ String.mk s.toList.dropLast ++ "\x27", ?_⟩
      unfold parse_duration
      rw [if_neg hs]
      simp only [hpf]
    | some v =>
      refine ⟨"Invalid duration unit: "
        ++ String.mk [s.toList.getLastD ' '] ++ ". Use s, m, or h", ?_⟩
      unfold parse_duration
      rw [if_neg hs]
      simp only [hpf, List.getLastD_eq_getLast?, if_neg h1, if_neg h2, if_neg h3]

/-- Witness for C9: the failure clauses applied at the concrete inputs
`""` and `"no-digits-s"`. -/
theorem C9_parse_duration_witness :
    (∃ e, parse_duration "" = .error e)
    ∧ (∃ e, parse_duration "xs" = .error e)
    ∧ (∃ e, parse_duration "5x" = .error e) :=
  ⟨C9_parse_duration.2.2.2.2.2.1 "" rfl,
   C9_parse_duration.2.2.2.2.2.2.1 "xs" (by decide),
   C9_parse_duration.2.2.2.2.2.2.2 "5x" (by decide) (by decide)⟩

/-! ## Template-substitution theorems -/

/-- A segment of a config string: either one literal character or one
`\x7b\x7b raw \x7d\x7d` placeholder occurrence (with `raw` the text
between the brace pairs). -/
inductive TemplateSeg where
  | lit (c : Char)
  | ph (raw : List Char)
deriving DecidableEq, Repr

/-- Spec-side decomposition of a string into literal characters and
placeholder occurrences, following the spec's words: "every string
value matching `\x7b\x7b name \x7d\x7d`" — each non-overlapping leftmost
occurrence of two open braces, a nonempty run of non-close-brace
characters, and two close braces is one placeholder. -/
def specTemplateSegs : List Char → List TemplateSeg
  | [] => []
  | [c] => [.lit c]
  | c₁ :: c₂ :: rest =>
    if c₁ = lbrace ∧ c₂ = lbrace then
      if rest.takeWhile (fun c => c ≠ rbrace) ≠ [] ∧
          (rest.drop (rest.takeWhile (fun c => c ≠ rbrace)).length).take 2
            = [rbrace, rbrace] then
        .ph (rest.takeWhile (fun c => c ≠ rbrace)) ::
          specTemplateSegs
            ((rest.drop (rest.takeWhile (fun c => c ≠ rbrace)).length).drop 2)
      else
        .lit c₁ :: specTemplateSegs (c₂ :: rest)
    else
      .lit c₁ :: specTemplateSegs (c₂ :: rest)
termination_by l => l.length
decreasing_by
  · simp only [List.length_cons, List.length_drop]
    omega
  · simp only [List.length_cons]; omega
  · simp only [List.length_cons]; omega

/-- Spec-side rendering of one segment: a placeholder whose stripped name
matches a workflow parameter is replaced by the parameter's value
stringified (booleans lowercased); an unmatched placeholder is left
verbatim; literal characters pass through. -/
def specRenderSeg (parameters : List (String × Value)) :
    TemplateSeg → List Char
  | .lit c => [c]
  | .ph w =>
    match parameters.lookup (String.mk (pyStripChars w)) with
    | some v => (pyStrOfValue v).toList
    | none => lbrace :: lbrace :: (w ++ [rbrace, rbrace])

/-- Refinement: the source's `re.sub` scan renders exactly the spec-side
segment decomposition. -/
theorem specRenderSeg_ph (parameters : List (String × Value))
    (w : List Char) :
    specRenderSeg parameters (.ph w) = replace_template parameters w := rfl

theorem substChars_eq_renderSegs (parameters : List (String × Value))
    (l : List Char) :
    substChars parameters l =
      ((specTemplateSegs l).map (specRenderSeg parameters)).flatten := by
  induction l using specTemplateSegs.induct with
  | case1 => simp [substChars, specTemplateSegs]
  | case2 c => simp [substChars, specTemplateSegs, specRenderSeg]
  | case3 c₁ c₂ rest hb hcond ih =>
    rw [substChars, specTemplateSegs, if_pos hb, if_pos hb, if_pos hcond,
      if_pos hcond]
    simp only [List.map_cons, List.flatten_cons, ih, specRenderSeg_ph]
  | case4 c₁ c₂ rest hb hcond ih =>
    rw [substChars, specTemplateSegs, if_pos hb, if_pos hb, if_neg hcond,
      if_neg hcond]
    simp only [List.map_cons, List.flatten_cons, ih, specRenderSeg,
      List.singleton_append]
  | case5 c₁ c₂ rest hb ih =>
    rw [substChars, specTemplateSegs, if_neg hb, if_neg hb]
    simp only [List.map_cons, List.flatten_cons, ih, specRenderSeg,
      List.singleton_append]

/-- **C7**: template substitution recursively walks a task's config;
within every string value each occurrence of `\x7b\x7b name \x7d\x7d`
is replaced by the matching workflow parameter's value stringified
(booleans lowercased), every placeholder that matches no parameter is
left verbatim, and non-string leaves (numbers, booleans, null) pass
through unchanged. -/
theorem C7_template_substitution :
    (∀ p (n : Int), substituteTemplates p (.int n) = .int n)
    ∧ (∀ p (b : Bool), substituteTemplates p (.bool b) = .bool b)
    ∧ (∀ p, substituteTemplates p .null = .null)
    ∧ (∀ p xs, substituteTemplates p (.list xs)
        = .list (xs.map (substituteTemplates p)))
    ∧ (∀ p kvs, substituteTemplates p (.obj kvs)
        = .obj (kvs.map (fun kv => (kv.1, substituteTemplates p kv.2))))
    ∧ (∀ p s, substituteTemplates p (.str s)
        = .str (String.mk
            (((specTemplateSegs s.toList).map (specRenderSeg p)).flatten)))
    ∧ (∀ p w v, p.lookup (String.mk (pyStripChars w)) = some v →
        specRenderSeg p (.ph w) = (pyStrOfValue v).toList)
    ∧ (∀ p w, p.lookup (String.mk (pyStripChars w)) = none →
        specRenderSeg p (.ph w) = lbrace :: lbrace :: (w ++ [rbrace, rbrace]))
    ∧ (∀ b, pyStrOfValue (.bool b) = if b then "true" else "false") := by
  refine ⟨fun p n => by rw [substituteTemplates],
    fun p b => by rw [substituteTemplates],
    fun p => by rw [substituteTemplates], ?_, ?_, ?_, ?_, ?_, fun b => rfl⟩
  · intro p xs
    rw [substituteTemplates]
    simp [List.map_attach]
  · intro p kvs
    rw [substituteTemplates]
    simp [List.map_attach]
  · intro p s
    rw [substituteTemplates, substChars_eq_renderSegs]
  · intro p w v h
    simp [specRenderSeg, h]
  · intro p w h
    simp [specRenderSeg, h]

/-- Witness for C7: the placeholder-rendering clauses applied at the
concrete parameter map `[("name", "world")]`. -/
theorem C7_template_substitution_witness :
    specRenderSeg [("name", Value.str "world")] (.ph " name ".toList)
      = "world".toList
    ∧ specRenderSeg [("name", Value.str "world")] (.ph " missing ".toList)
      = lbrace :: lbrace :: (" missing ".toList ++ [rbrace, rbrace]) :=
  ⟨C7_template_substitution.2.2.2.2.2.2.1 _ _ (Value.str "world") rfl,
   C7_template_substitution.2.2.2.2.2.2.2.1 _ _ rfl⟩

/-! ## Scheduler theorems -/

/-- `depsSatisfied` agrees with the spec's formula
`depends_on = ∅ ∨ ∀ d ∈ depends_on, d ∈ completed` (an absent
`depends_on` counting as empty). -/
theorem depsSatisfied_eq_spec (t : Task) (completed : List String) :
    depsSatisfied t completed
      = ((t.depends_on.getD []).isEmpty
          || (t.depends_on.getD []).all (fun d => completed.contains d)) := by
  cases h : t.depends_on with
  | none => simp [depsSatisfied, h]
  | some deps => simp [depsSatisfied, h]

/-- Concrete chain fixture: task `a` with no dependencies. -/
def taskA : Task := { id := "a", name := "A", activity_type := "act" }

/-- Concrete chain fixture: task `b` depending on `a`. -/
def taskB : Task :=
  { id := "b", name := "B", activity_type := "act", depends_on := some ["a"] }

/-- Concrete chain fixture: task `c` depending on `b`. -/
def taskC : Task :=
  { id := "c", name := "C", activity_type := "act", depends_on := some ["b"] }

/-- The chain workflow `a ← b ← c`. -/
def chainWorkflow : WorkflowDefinition :=
  { name := "chain", tasks := [taskA, taskB, taskC] }

/-- The source's ready-task loop is a filter. -/
theorem get_ready_tasks_eq_filter (tasks : List Task)
    (completed : List String) :
    _get_ready_tasks tasks completed
      = tasks.filter
          (fun t => !completed.contains t.id && depsSatisfied t completed) := by
  induction tasks with
  | nil => rfl
  | cons t rest ih =>
    rw [_get_ready_tasks]
    by_cases h1 : completed.contains t.id = true
    · rw [if_pos h1, ih, List.filter_cons]
      have hp : (!completed.contains t.id && depsSatisfied t completed)
          = false := by
        rw [h1]; rfl
      rw [hp]
      simp
    · have h1f : completed.contains t.id = false := by simpa using h1
      rw [if_neg h1]
      by_cases h2 : depsSatisfied t completed = true
      · rw [if_pos h2, ih, List.filter_cons]
        have hp : (!completed.contains t.id && depsSatisfied t completed)
            = true := by
          rw [h1f, h2]; rfl
        rw [hp]
        simp
      · have h2f : depsSatisfied t completed = false := by simpa using h2
        rw [if_neg h2, ih, List.filter_cons]
        have hp : (!completed.contains t.id && depsSatisfied t completed)
            = false := by
          rw [h1f, h2f]; rfl
        rw [hp]
        simp

/-- **C5**: at every scheduling iteration, the computed ready set equals
exactly `{ t ∈ tasks : t.id ∉ completed ∧ (t.depends_on empty ∨ every
dependency completed) }`; in particular, for the chain `A`, `B → [A]`,
`C → [B]`, the ready-set sequence is `{A}`, then `{B}`, then `{C}`, and
`completed_tasks_order` ends as `[A, B, C]`. -/
theorem C5_ready_tasks :
    (∀ (tasks : List Task) (completed : List String),
      _get_ready_tasks tasks completed
        = tasks.filter (fun t =>
            !completed.contains t.id &&
            ((t.depends_on.getD []).isEmpty
              || (t.depends_on.getD []).all (fun d => completed.contains d))))
    ∧ _get_ready_tasks [taskA, taskB, taskC] [] = [taskA]
    ∧ _get_ready_tasks [taskA, taskB, taskC] ["a"] = [taskB]
    ∧ _get_ready_tasks [taskA, taskB, taskC] ["a", "b"] = [taskC]
    ∧ (runWorkflow (fun _ => .ok .null) (fun _ => .ok ())
        chainWorkflow).state.completed_tasks_order = ["a", "b", "c"] := by
  refine ⟨?_, rfl, rfl, rfl, rfl⟩
  intro tasks completed
  rw [get_ready_tasks_eq_filter]
  refine List.filter_congr ?_
  intro t _
  rw [depsSatisfied_eq_spec]

/-! ## Compensation-engine theorems -/

theorem lookup_dictSet_self {β : Type} (l : List (String × β)) (k : String)
    (v : β) : (dictSet l k v).lookup k = some v := by
  induction l with
  | nil => simp [dictSet, List.lookup]
  | cons kv rest ih =>
    obtain ⟨k1, v1⟩ := kv
    rw [dictSet]
    by_cases h : k1 = k
    · rw [if_pos h]
      simp [List.lookup]
    · rw [if_neg h]
      simp only [List.lookup]
      have : (k == k1) = false := by
        simpa using Ne.symm h
      rw [this]
      exact ih

theorem lookup_dictSet_ne {β : Type} {k2 k : String} (h : k2 ≠ k)
    (l : List (String × β)) (v : β) :
    (dictSet l k v).lookup k2 = l.lookup k2 := by
  induction l with
  | nil =>
    simp only [dictSet, List.lookup]
    have : (k2 == k) = false := by simpa using h
    rw [this]
  | cons kv rest ih =>
    obtain ⟨k1, v1⟩ := kv
    rw [dictSet]
    by_cases h1 : k1 = k
    · rw [if_pos h1]
      simp only [List.lookup]
      have hne : (k2 == k) = false := by simpa using h
      have hne1 : (k2 == k1) = false := by
        simpa using (h1 ▸ h)
      rw [hne, hne1]
    · rw [if_neg h1]
      simp only [List.lookup]
      cases hbe : (k2 == k1) with
      | true => rfl
      | false => exact ih

/-- A completed task ID is compensable when its snapshotted definition
exists and defines a compensation. -/
def isCompensable (defs : List (String × Task)) (tid : String) : Bool :=
  match defs.lookup tid with
  | some t => t.compensation.isSome
  | none => false

theorem compensationLoop_eq_filter (co : Task → Except String Unit)
    (defs : List (String × Task)) (order : List String) :
    compensationLoop co defs order = order.filter (isCompensable defs) := by
  induction order with
  | nil => rfl
  | cons tid rest ih =>
    rw [compensationLoop, List.filter_cons]
    cases h : defs.lookup tid with
    | none =>
      have : isCompensable defs tid = false := by simp [isCompensable, h]
      rw [this, ih]
      simp
    | some t =>
      cases hc : t.compensation with
      | none =>
        have : isCompensable defs tid = false := by simp [isCompensable, h, hc]
        rw [this, ih]
        simp [hc]
      | some c =>
        have : isCompensable defs tid = true := by simp [isCompensable, h, hc]
        rw [this, ih]
        cases hco : co t <;> simp [hc, hco]

theorem run_compensations_eq_filter (co : Task → Except String Unit)
    (defs : List (String × Task)) (order : List String) :
    _run_compensations co defs order
      = order.reverse.filter (isCompensable defs) := by
  rw [_run_compensations]
  by_cases h : order.isEmpty
  · have : order = [] := by simpa using h
    subst this
    simp
  · rw [if_neg h, compensationLoop_eq_filter]

/-- **C2**: whenever a run fails after at least one task has completed,
`run_compensations` iterates `completed_tasks_order` in reverse: every
compensable completed task receives exactly one compensation attempt,
in strict reverse-completion order; a compensation failure is logged
and swallowed and never aborts the remaining compensation sequence;
when `completed_tasks_order` is empty, zero compensations are
attempted; and after all compensations run the original triggering
error is re-raised unchanged. -/
theorem C2_compensation_engine :
    (∀ (co : Task → Except String Unit) defs (order : List String),
      _run_compensations co defs order
        = order.reverse.filter (isCompensable defs))
    ∧ (∀ (co₁ co₂ : Task → Except String Unit) defs (order : List String),
        _run_compensations co₁ defs order = _run_compensations co₂ defs order)
    ∧ (∀ (co : Task → Except String Unit) defs,
        _run_compensations co defs [] = [])
    ∧ (∀ (co : Task → Except String Unit) defs (order : List String)
        (tid : String), order.Nodup → tid ∈ order →
        isCompensable defs tid = true →
        (_run_compensations co defs order).count tid = 1)
    ∧ (∀ (exec : Task → Except String Value) (co : Task → Except String Unit)
        (wf : WorkflowDefinition) (e : String),
        (runLoop exec wf.tasks (wf.tasks.length + 1) {}).2 = some e →
        (runWorkflow exec co wf).result = .error e) := by
  refine ⟨run_compensations_eq_filter, ?_, ?_, ?_, ?_⟩
  · intro co₁ co₂ defs order
    rw [run_compensations_eq_filter, run_compensations_eq_filter]
  · intro co defs
    rfl
  · intro co defs order tid hnd hmem hcomp
    rw [run_compensations_eq_filter, List.count_filter hcomp,
      List.count_reverse]
    exact List.count_eq_one_of_mem hnd hmem
  · intro exec co wf e h
    rw [runWorkflow]
    simp only [h]

/-- Witness for C2: a single compensable completed task with a *failing*
compensation outcome is still attempted exactly once. -/
theorem C2_compensation_engine_witness :
    (_run_compensations (fun _ => .error "compensation boom")
      [("d", { id := "d", name := "D", activity_type := "act",
               compensation := some { activity_type := "undo" } })]
      ["d"]).count "d" = 1
    ∧ (runWorkflow (fun _ => .error "boom") (fun _ => .ok ())
        chainWorkflow).result = .error "boom" :=
  ⟨C2_compensation_engine.2.2.2.1 (fun _ => .error "compensation boom")
    [("d", { id := "d", name := "D", activity_type := "act",
             compensation := some { activity_type := "undo" } })]
    ["d"] "d" (by simp) (by simp) rfl,
   C2_compensation_engine.2.2.2.2 (fun _ => .error "boom")
    (fun _ => .ok ()) chainWorkflow "boom" rfl⟩

/-- **C1**: every task definition accepts an optional `compensation` field
of the shape `{activity_type, config, retry?, timeout?}` with no id of
its own (it is addressed through the owning task's ID, which the engine
passes as `task_id`/`original_task_id`), and during rollback the
compensation engine skips any completed task that defines no
compensation. -/
theorem C1_compensation_field :
    (∀ c : Compensation,
      c = ⟨c.activity_type, c.config, c.retry, c.timeout⟩)
    ∧ (∀ t : Task, t.compensation = none ∨ ∃ c, t.compensation = some c)
    ∧ (∀ (t : Task) (comp : Compensation) results params execId,
        (compensationArgs t comp results params execId).lookup
            "original_task_id" = some (.str t.id)
        ∧ (compensationArgs t comp results params execId).lookup
            "task_id" = some (.str t.id))
    ∧ (∀ (co : Task → Except String Unit) defs (order : List String)
        (tid : String) (t : Task),
        defs.lookup tid = some t → t.compensation = none →
        tid ∉ _run_compensations co defs order) := by
  refine ⟨fun c => rfl, ?_, ?_, ?_⟩
  · intro t
    cases h : t.compensation with
    | none => exact Or.inl rfl
    | some c => exact Or.inr ⟨c, rfl⟩
  · intro t comp results params execId
    constructor
    · rw [compensationArgs.eq_def]
      cases execId with
      | none =>
        rw [lookup_dictSet_ne (by decide), lookup_dictSet_ne (by decide),
          lookup_dictSet_self]
      | some e =>
        rw [lookup_dictSet_ne (by decide), lookup_dictSet_ne (by decide),
          lookup_dictSet_ne (by decide), lookup_dictSet_self]
    · rw [compensationArgs.eq_def]
      cases execId with
      | none =>
        rw [lookup_dictSet_ne (by decide), lookup_dictSet_ne (by decide),
          lookup_dictSet_ne (by decide), lookup_dictSet_self]
      | some e =>
        rw [lookup_dictSet_ne (by decide), lookup_dictSet_ne (by decide),
          lookup_dictSet_ne (by decide), lookup_dictSet_ne (by decide),
          lookup_dictSet_self]
  · intro co defs order tid t hlook hnone hmem
    rw [run_compensations_eq_filter] at hmem
    have hc := List.of_mem_filter hmem
    rw [isCompensable] at hc
    rw [hlook] at hc
    simp only [hnone] at hc
    simp at hc

/-- Witness for C1: a completed task without a compensation is skipped by
the rollback loop. -/
theorem C1_compensation_field_witness :
    "a" ∉ _run_compensations (fun _ => .ok ()) [("a", taskA)] ["a"] :=
  C1_compensation_field.2.2.2 (fun _ => .ok ()) [("a", taskA)] ["a"] "a"
    taskA rfl rfl

/-! ## Concurrent-batch theorems -/

/-- Batch fixtures: four independent tasks scheduled as one concurrent
batch. -/
def taskP : Task := { id := "p", name := "P", activity_type := "act" }

/-- Batch fixture `q` (its execution fails). -/
def taskQ : Task := { id := "q", name := "Q", activity_type := "act" }

/-- Batch fixture `r` (succeeds, but is listed after the failing `q`). -/
def taskR : Task := { id := "r", name := "R", activity_type := "act" }

/-- Batch fixture `s` (a second failure in the same batch). -/
def taskS : Task := { id := "s", name := "S", activity_type := "act" }

/-- The four-task batch workflow. -/
def batchWorkflow : WorkflowDefinition :=
  { name := "batch", tasks := [taskP, taskQ, taskR, taskS] }

/-- Concrete execution outcomes: `q` and `s` fail, `p` and `r` succeed. -/
def batchExec : Task → Except String Value := fun t =>
  if t.id = "q" then .error "boom1"
  else if t.id = "s" then .error "boom2"
  else .ok (.str "done")

/-- Counterexample to C3 as stated: in the batch `[p ok, q fail, r ok,
s fail]` the run aborts naming `q` (true part), but the *successful*
sibling `r` is never merged into `task_results` nor appended to
`completed_tasks_order`, and the second failed sibling `s` is never
recorded in `failed_tasks` — the `zip` loop stops at the first
exception. -/
theorem C3_counterexample :
    (runWorkflow batchExec (fun _ => .ok ()) batchWorkflow).result
      = .error "Task 'q' failed: boom1"
    ∧ (runWorkflow batchExec (fun _ => .ok ())
        batchWorkflow).state.task_results.lookup "r" = none
    ∧ (runWorkflow batchExec (fun _ => .ok ())
        batchWorkflow).state.failed_tasks.lookup "s" = none
    ∧ (runWorkflow batchExec (fun _ => .ok ())
        batchWorkflow).state.completed_tasks_order = ["p"] :=
  ⟨rfl, rfl, rfl, rfl⟩

/-- The cumulative state update for the successful prefix of a batch. -/
def mergeSuccesses (outcomes : List (Task × Except String Value))
    (st : RunState) : RunState :=
  outcomes.foldl (fun s o =>
    match o.2 with
    | .ok v =>
      { s with
        task_results := dictSet s.task_results o.1.id v,
        completed_task_ids := pySetAdd s.completed_task_ids o.1.id,
        completed_tasks_order := s.completed_tasks_order ++ [o.1.id] }
    | .error _ => s) st

/-- **C3 (amended)**: in a concurrent batch the `zip` loop merges
successful results in batch order only up to the first failure: those
tasks enter `task_results`, `completed` and `completed_tasks_order`;
the *first* failed task (and only it) is recorded in `failed_tasks`
and the run aborts immediately with an error naming it and surfacing
its message; every outcome after the first failure — successful or
failed — is discarded.  When every task in the batch succeeds, all are
merged and no error is raised. -/
theorem C3_batch_amended :
    (∀ (outcomes : List (Task × Except String Value)) (st : RunState),
      (∀ o ∈ outcomes, ∃ v, o.2 = .ok v) →
      processBatch outcomes st = (mergeSuccesses outcomes st, none))
    ∧ (∀ (pre : List (Task × Except String Value)) (t : Task) (m : String)
        (post : List (Task × Except String Value)) (st : RunState),
        (∀ o ∈ pre, ∃ v, o.2 = .ok v) →
        processBatch (pre ++ (t, .error m) :: post) st
          = ({ mergeSuccesses pre st with
               failed_tasks :=
                 dictSet (mergeSuccesses pre st).failed_tasks t.id m },
             some ("Task '" ++ t.id ++ "' failed: " ++ m)))
    ∧ (∀ (pre : List (Task × Except String Value)) (t : Task) (m : String)
        (post₁ post₂ : List (Task × Except String Value)) (st : RunState),
        (∀ o ∈ pre, ∃ v, o.2 = .ok v) →
        processBatch (pre ++ (t, .error m) :: post₁) st
          = processBatch (pre ++ (t, .error m) :: post₂) st) := by
  have hok : ∀ (outcomes : List (Task × Except String Value)) (st : RunState),
      (∀ o ∈ outcomes, ∃ v, o.2 = .ok v) →
      processBatch outcomes st = (mergeSuccesses outcomes st, none) := by
    intro outcomes
    induction outcomes with
    | nil => intro st h; rfl
    | cons o rest ih =>
      intro st h
      obtain ⟨t, out⟩ := o
      obtain ⟨v, hv⟩ := h (t, out) (List.mem_cons_self _ _)
      simp only at hv
      subst hv
      rw [processBatch, mergeSuccesses]
      simp only [List.foldl_cons]
      rw [ih _ (fun o ho => h o (List.mem_cons_of_mem _ ho))]
      rfl
  have hfail : ∀ (pre : List (Task × Except String Value)) (t : Task)
      (m : String) (post : List (Task × Except String Value)) (st : RunState),
      (∀ o ∈ pre, ∃ v, o.2 = .ok v) →
      processBatch (pre ++ (t, .error m) :: post) st
        = ({ mergeSuccesses pre st with
             failed_tasks :=
               dictSet (mergeSuccesses pre st).failed_tasks t.id m },
           some ("Task '" ++ t.id ++ "' failed: " ++ m)) := by
    intro pre
    induction pre with
    | nil =>
      intro t m post st h
      rfl
    | cons o rest ih =>
      intro t m post st h
      obtain ⟨u, out⟩ := o
      obtain ⟨v, hv⟩ := h (u, out) (List.mem_cons_self _ _)
      simp only at hv
      subst hv
      rw [List.cons_append, processBatch, mergeSuccesses]
      simp only [List.foldl_cons]
      rw [ih t m post _ (fun o ho => h o (List.mem_cons_of_mem _ ho))]
      rfl
  refine ⟨hok, hfail, ?_⟩
  intro pre t m post₁ post₂ st h
  rw [hfail pre t m post₁ st h, hfail pre t m post₂ st h]

/-- Witness for C3 (amended): the first-failure clause applied to the
concrete batch `[p ok, q fail, r ok]`. -/
theorem C3_batch_amended_witness :
    processBatch
      [(taskP, .ok (.str "done")), (taskQ, .error "boom1"),
       (taskR, .ok (.str "done"))] {}
      = ({ mergeSuccesses [(taskP, .ok (.str "done"))] {} with
           failed_tasks :=
             dictSet (mergeSuccesses [(taskP, .ok (.str "done"))] {}).failed_tasks
               "q" "boom1" },
         some "Task 'q' failed: boom1")
    ∧ processBatch [(taskP, .ok (.str "done")), (taskR, .ok (.str "done"))] {}
      = (mergeSuccesses
          [(taskP, .ok (.str "done")), (taskR, .ok (.str "done"))] {}, none) :=
  ⟨C3_batch_amended.2.1 [(taskP, .ok (.str "done"))] taskQ "boom1"
    [(taskR, .ok (.str "done"))] {}
    (fun o ho => by
      simp only [List.mem_singleton] at ho
      subst ho
      exact ⟨.str "done", rfl⟩),
   C3_batch_amended.1 [(taskP, .ok (.str "done")), (taskR, .ok (.str "done"))]
    {}
    (fun o ho => by
      simp only [List.mem_cons, List.not_mem_nil, or_false] at ho
      rcases ho with rfl | rfl
      · exact ⟨.str "done", rfl⟩
      · exact ⟨.str "done", rfl⟩)⟩

/-! ## Dispatch-registry theorems -/

/-- Fixture: a task whose `activity_type` is not registered. -/
def unregTask : Task :=
  { id := "u", name := "U", activity_type := "unregistered_type" }

/-- Fixture: the one-task workflow around `unregTask`. -/
def unregWorkflow : WorkflowDefinition :=
  { name := "unreg", tasks := [unregTask] }

/-- Fixture: a substrate that resolves every dispatch (including by
string name, as Temporal does for worker-registered activities). -/
def okSubstrate : DispatchTarget Unit → List (String × Value) → ℚ →
    Option TemporalRetryPolicy → Except String Value :=
  fun _ _ _ _ => .ok .null

/-- Counterexample to C6 as stated: `_execute_task_with_retry` does *not*
abort when the activity type is unregistered — it falls back to
dispatching the raw activity-type string, and with a substrate that
resolves it the run completes successfully, with no `DispatchError`. -/
theorem C6_counterexample :
    chooseDispatch ({} : ActivityRegistry Unit) unregTask
      = .byName "unregistered_type"
    ∧ (runWorkflow
        (execute_task_with_retry ({} : ActivityRegistry Unit) okSubstrate
          [] none)
        (fun _ => .ok ()) unregWorkflow).result = .ok [("u", .null)] :=
  ⟨rfl, rfl⟩

/-- **C6 (amended)**: looking up an unregistered activity type through the
registry's `get` fails (`KeyError`), `has` returns true exactly when
the type is registered; but a run that reaches a task whose
`activity_type` is not registered does *not* abort: the engine falls
back to dispatching the raw activity-type string and leaves resolution
to the substrate. -/
theorem C6_registry_amended :
    (∀ (α : Type) (reg : ActivityRegistry α) (ty : String),
      reg.has ty = true ↔ ∃ f, reg._activities.lookup ty = some f)
    ∧ (∀ (α : Type) (reg : ActivityRegistry α) (ty : String),
        (∃ e, reg.get ty = .error e) ↔ reg.has ty = false)
    ∧ (∀ (α : Type) (reg : ActivityRegistry α) (ty : String) (f : α),
        reg._activities.lookup ty = some f → reg.get ty = .ok f)
    ∧ (∀ (α : Type) (reg : ActivityRegistry α) (t : Task),
        reg.has t.activity_type = false →
        chooseDispatch reg t = .byName t.activity_type)
    ∧ (∀ (α : Type) (reg : ActivityRegistry α) (t : Task) (f : α),
        reg._activities.lookup t.activity_type = some f →
        chooseDispatch reg t = .fn f) := by
  refine ⟨?_, ?_, ?_, ?_, ?_⟩
  · intro α reg ty
    rw [ActivityRegistry.has]
    cases h : reg._activities.lookup ty with
    | none => simp [h]
    | some f => simp [h]
  · intro α reg ty
    rw [ActivityRegistry.has, ActivityRegistry.get]
    cases h : reg._activities.lookup ty with
    | none => simp
    | some f => simp
  · intro α reg ty f h
    rw [ActivityRegistry.get, h]
  · intro α reg t h
    rw [ActivityRegistry.has] at h
    rw [chooseDispatch]
    cases hl : reg._activities.lookup t.activity_type with
    | none => rfl
    | some f =>
      rw [hl] at h
      cases h
  · intro α reg t f h
    rw [chooseDispatch, h]

/-- Witness for C6 (amended): the fallback clause applied to the empty
registry and `unregTask`. -/
theorem C6_registry_amended_witness :
    chooseDispatch ({} : ActivityRegistry Unit) unregTask
      = .byName unregTask.activity_type
    ∧ chooseDispatch
        ({ _activities := [("act", ())], _temporal_activities := [()] }
          : ActivityRegistry Unit) taskA = .fn ()
    ∧ ({ _activities := [("act", ())], _temporal_activities := [()] }
          : ActivityRegistry Unit).get "act" = .ok () :=
  ⟨C6_registry_amended.2.2.2.1 Unit ({} : ActivityRegistry Unit) unregTask rfl,
   C6_registry_amended.2.2.2.2 Unit
     ({ _activities := [("act", ())], _temporal_activities := [()] })
     taskA () rfl,
   C6_registry_amended.2.2.1 Unit
     ({ _activities := [("act", ())], _temporal_activities := [()] })
     "act" () rfl⟩

/-! ## Cycle-detection theorems -/

/-- The edge relation of the dependency graph built by `validate_tasks`. -/
def EdgeOf (adj : String → List String) (u v : String) : Prop := v ∈ adj u

/-- `v` can reach a node lying on a (directed, nonempty) cycle. -/
def ReachesCycle (adj : String → List String) (v : String) : Prop :=
  ∃ c, Relation.ReflTransGen (EdgeOf adj) v c
    ∧ Relation.TransGen (EdgeOf adj) c c

/-- The graph contains a directed cycle. -/
def HasCycle (adj : String → List String) : Prop :=
  ∃ c, Relation.TransGen (EdgeOf adj) c c

/-- A node all of whose neighbours cannot reach a cycle cannot reach a
cycle either. -/
theorem safe_of_neighbors_safe {adj : String → List String} {v : String}
    (h : ∀ n ∈ adj v, ¬ ReachesCycle adj n) : ¬ ReachesCycle adj v := by
  rintro ⟨c, hvc, hcc⟩
  rcases (Relation.reflTransGen_iff_eq_or_transGen.mp hvc) with rfl | hvt
  · obtain ⟨b, hvb, hbv⟩ := Relation.TransGen.head'_iff.mp hcc
    exact h b hvb ⟨c, hbv, hcc⟩
  · obtain ⟨b, hvb, hbc⟩ := Relation.TransGen.head'_iff.mp hvt
    exact h b hvb ⟨c, hbc, hcc⟩

/-- The recursion stack as maintained by `has_cycle`: consecutive entries
are connected by an edge from the deeper (older) entry to the shallower
(newer) one. -/
def StackPath (adj : String → List String) (l : List String) : Prop :=
  List.Chain' (fun a b => EdgeOf adj b a) l

theorem stackPath_mem_reaches_head (adj : String → List String) :
    ∀ (l : List String), StackPath adj l → ∀ n ∈ l, ∀ (hne : l ≠ []),
      Relation.ReflTransGen (EdgeOf adj) n (l.head hne) := by
  intro l
  induction l with
  | nil => intro _ n hn; cases hn
  | cons a rest ih =>
    intro hp n hn hne
    rcases List.mem_cons.mp hn with rfl | hn'
    · exact Relation.ReflTransGen.refl
    · have hrne : rest ≠ [] := List.ne_nil_of_mem hn'
      cases rest with
      | nil => cases hn'
      | cons b t =>
        have hp' : StackPath adj (b :: t) := (List.chain'_cons.mp hp).2
        have hedge : EdgeOf adj b a := (List.chain'_cons.mp hp).1
        have := ih hp' n hn' (by simp)
        exact Relation.ReflTransGen.tail this hedge

theorem stackPath_last_reaches_mem (adj : String → List String) :
    ∀ (l : List String), StackPath adj l → ∀ n ∈ l, ∀ (hne : l ≠ []),
      Relation.ReflTransGen (EdgeOf adj) (l.getLast hne) n := by
  intro l
  induction l with
  | nil => intro _ n hn; cases hn
  | cons a rest ih =>
    intro hp n hn hne
    cases rest with
    | nil =>
      rcases List.mem_cons.mp hn with rfl | hn'
      · exact Relation.ReflTransGen.refl
      · cases hn'
    | cons b t =>
      have hp' : StackPath adj (b :: t) := (List.chain'_cons.mp hp).2
      have hedge : EdgeOf adj b a := (List.chain'_cons.mp hp).1
      rw [List.getLast_cons (by simp)]
      rcases List.mem_cons.mp hn with rfl | hn'
      · have hlast : Relation.ReflTransGen (EdgeOf adj)
            ((b :: t).getLast (by simp)) b := ih hp' b (by simp) (by simp)
        exact Relation.ReflTransGen.tail hlast hedge
      · exact ih hp' n hn' (by simp)

/-- Soundness of `has_cycle`: if the DFS from `v` (with recursion stack
`v :: stack`) reports a cycle, then the bottom of the stack — in
particular the root the outer loop started from — reaches a cycle. -/
theorem dfs_sound_visit (adj : String → List String) :
    ∀ (fuel : Nat) (v : String) (visited stack : List String),
      StackPath adj (v :: stack) →
      (dfsVisit adj fuel v visited stack).1 = true →
      ReachesCycle adj ((v :: stack).getLast (by simp)) := by
  intro fuel
  induction fuel with
  | zero =>
    intro v visited stack hp h
    rw [dfsVisit] at h
    cases h
  | succ fuel ih =>
    have hnbrs : ∀ (ns : List String) (v : String) (visited stack : List String),
        StackPath adj (v :: stack) → (∀ n ∈ ns, EdgeOf adj v n) →
        (dfsNeighbors (dfsVisit adj fuel) ns v visited (v :: stack)).1 = true →
        ReachesCycle adj ((v :: stack).getLast (by simp)) := by
      intro ns
      induction ns with
      | nil =>
        intro v visited stack hp hns h
        rw [dfsNeighbors] at h
        cases h
      | cons n ns ihn =>
        intro v visited stack hp hns h
        rw [dfsNeighbors] at h
        by_cases hvn : visited.contains n = true
        · rw [if_neg (not_not_intro hvn)] at h
          by_cases hstk : (v :: stack).contains n = true
          · have hmem : n ∈ v :: stack := by
              simpa using hstk
            have hreach : Relation.ReflTransGen (EdgeOf adj) n v := by
              have := stackPath_mem_reaches_head adj (v :: stack) hp n hmem
                (by simp)
              simpa using this
            have hcyc : Relation.TransGen (EdgeOf adj) n n :=
              Relation.TransGen.tail' hreach (hns n (by simp))
            have hroot : Relation.ReflTransGen (EdgeOf adj)
                ((v :: stack).getLast (by simp)) n :=
              stackPath_last_reaches_mem adj (v :: stack) hp n hmem (by simp)
            exact ⟨n, hroot, hcyc⟩
          · rw [if_neg hstk] at h
            exact ihn v visited stack hp
              (fun m hm => hns m (List.mem_cons_of_mem _ hm)) h
        · rw [if_pos hvn] at h
          rcases hdv : dfsVisit adj fuel n visited (v :: stack) with ⟨b, vis⟩
          rw [hdv] at h
          cases b with
          | true =>
            have hp' : StackPath adj (n :: v :: stack) :=
              List.chain'_cons.mpr ⟨hns n (by simp), hp⟩
            have := ih n visited (v :: stack) hp'
              (by rw [hdv])
            rwa [List.getLast_cons (by simp)] at this
          | false =>
            exact ihn v vis stack hp
              (fun m hm => hns m (List.mem_cons_of_mem _ hm)) h
    intro v visited stack hp h
    rw [dfsVisit] at h
    exact hnbrs (adj v) v (v :: visited) stack hp (fun n hn => hn) h

/-- Number of `U`-nodes not yet visited; the DFS fuel budget. -/
def UnvisitedCount (U visited : List String) : Nat :=
  U.countP (fun u => !visited.contains u)

theorem unvisited_mono (U : List String) {vis vis2 : List String}
    (h : ∀ x, vis.contains x = true → vis2.contains x = true) :
    UnvisitedCount U vis2 ≤ UnvisitedCount U vis := by
  induction U with
  | nil => exact Nat.le_refl 0
  | cons u U ih =>
    simp only [UnvisitedCount, List.countP_cons] at ih ⊢
    have hif : (if (!vis2.contains u) = true then 1 else 0)
        ≤ (if (!vis.contains u) = true then 1 else 0) := by
      by_cases h1 : vis.contains u = true
      · have h2 := h u h1
        rw [h1, h2]
      · have h1f : vis.contains u = false := by
          cases hb : vis.contains u
          · rfl
          · exact absurd hb h1
        rw [h1f]
        cases h2 : vis2.contains u <;> simp
    omega

theorem unvisited_lt (U : List String) {vis vis2 : List String} (v : String)
    (h : ∀ x, vis.contains x = true → vis2.contains x = true)
    (hvU : v ∈ U) (hv : vis.contains v = false)
    (hv2 : vis2.contains v = true) :
    UnvisitedCount U vis2 < UnvisitedCount U vis := by
  induction U with
  | nil => cases hvU
  | cons u U ih =>
    have hmono : UnvisitedCount U vis2 ≤ UnvisitedCount U vis :=
      unvisited_mono U h
    simp only [UnvisitedCount, List.countP_cons] at ih hmono ⊢
    rcases List.mem_cons.mp hvU with rfl | hU2
    · have e1 : (if (!vis2.contains v) = true then 1 else 0) = 0 := by
        rw [hv2]
        rfl
      have e2 : (if (!vis.contains v) = true then 1 else 0) = 1 := by
        rw [hv]
        rfl
      rw [e1, e2]
      omega
    · have hlt := ih hU2
      have hif : (if (!vis2.contains u) = true then 1 else 0)
          ≤ (if (!vis.contains u) = true then 1 else 0) := by
        by_cases h1 : vis.contains u = true
        · have h2 := h u h1
          rw [h1, h2]
        · have h1f : vis.contains u = false := by
            cases hb : vis.contains u
            · rfl
            · exact absurd hb h1
          rw [h1f]
          cases h2 : vis2.contains u <;> simp [h2]
      omega

/-- Completeness invariant of `has_cycle`: a call on an unvisited node,
with every stacked node visited and every visited off-stack node unable
to reach a cycle, that returns `False` leaves the visited set grown (the
node included) with the same invariant — in particular the node itself
can then not reach any cycle. -/
theorem dfs_complete_visit (adj : String → List String) (U : List String)
    (Hc : ∀ u w, w ∈ adj u → w ∈ U) :
    ∀ (fuel : Nat) (v : String) (visited stack : List String),
      v ∈ U →
      visited.contains v = false →
      (∀ x, stack.contains x = true → visited.contains x = true) →
      (∀ w, visited.contains w = true → stack.contains w = false →
        ¬ ReachesCycle adj w) →
      UnvisitedCount U visited < fuel →
      ∀ vis2, dfsVisit adj fuel v visited stack = (false, vis2) →
      ((∀ x, visited.contains x = true → vis2.contains x = true)
        ∧ vis2.contains v = true
        ∧ (∀ w, vis2.contains w = true → stack.contains w = false →
            ¬ ReachesCycle adj w)) := by
  intro fuel
  induction fuel with
  | zero =>
    intro v visited stack hvU hv hsub hsafe hfuel
    exact absurd hfuel (by omega)
  | succ fuel ih =>
    have hnbrs : ∀ (ns : List String) (v : String)
        (visited stack : List String),
        (∀ n ∈ ns, n ∈ adj v) →
        (∀ x, (v :: stack).contains x = true → visited.contains x = true) →
        (∀ w, visited.contains w = true →
          (v :: stack).contains w = false → ¬ ReachesCycle adj w) →
        UnvisitedCount U visited < fuel →
        ∀ vis2, dfsNeighbors (dfsVisit adj fuel) ns v visited (v :: stack)
          = (false, vis2) →
        ((∀ x, visited.contains x = true → vis2.contains x = true)
          ∧ (∀ w, vis2.contains w = true →
              (v :: stack).contains w = false → ¬ ReachesCycle adj w)
          ∧ (∀ n ∈ ns, vis2.contains n = true
              ∧ (v :: stack).contains n = false
              ∧ ¬ ReachesCycle adj n)) := by
      intro ns
      induction ns with
      | nil =>
        intro v visited stack hns hsub hsafe hfuel vis2 hEq
        rw [dfsNeighbors] at hEq
        obtain ⟨-, h2⟩ := Prod.mk.injEq .. ▸ hEq
        injection hEq with hr hv2
        subst hv2
        exact ⟨fun x hx => hx, hsafe, fun n hn => absurd hn (List.not_mem_nil n)⟩
      | cons n ns ihn =>
        intro v visited stack hns hsub hsafe hfuel vis2 hEq
        rw [dfsNeighbors] at hEq
        by_cases hvn : visited.contains n = true
        · rw [if_neg (not_not_intro hvn)] at hEq
          by_cases hstk : (v :: stack).contains n = true
          · rw [if_pos hstk] at hEq
            injection hEq with hr hv2
            cases hr
          · rw [if_neg hstk] at hEq
            obtain ⟨m1, m2, m3⟩ := ihn v visited stack
              (fun m hm => hns m (List.mem_cons_of_mem _ hm))
              hsub hsafe hfuel vis2 hEq
            refine ⟨m1, m2, ?_⟩
            intro m hm
            rcases List.mem_cons.mp hm with rfl | hm2
            · have hstkf : (v :: stack).contains m = false := by
                simpa using hstk
              exact ⟨m1 m hvn, hstkf, hsafe m hvn hstkf⟩
            · exact m3 m hm2
        · rw [if_pos hvn] at hEq
          rcases hdv : dfsVisit adj fuel n visited (v :: stack)
            with ⟨b, visn⟩
          rw [hdv] at hEq
          cases b with
          | true =>
            injection hEq with hr hv2
            cases hr
          | false =>
            have hvnf : visited.contains n = false := by
              simpa using hvn
            obtain ⟨d1, d2, d3⟩ := ih n visited (v :: stack)
              (Hc v n (hns n (List.mem_cons_self n ns)))
              hvnf hsub hsafe hfuel visn hdv
            have hsub2 : ∀ x, (v :: stack).contains x = true →
                visn.contains x = true := fun x hx => d1 x (hsub x hx)
            have hfuel2 : UnvisitedCount U visn < fuel :=
              Nat.lt_of_le_of_lt (unvisited_mono U d1) hfuel
            obtain ⟨m1, m2, m3⟩ := ihn v visn stack
              (fun m hm => hns m (List.mem_cons_of_mem _ hm))
              hsub2 d3 hfuel2 vis2 hEq
            have hstkn : (v :: stack).contains n = false := by
              cases hcs : (v :: stack).contains n
              · rfl
              · have := hsub n hcs
                rw [hvnf] at this
                cases this
            refine ⟨fun x hx => m1 x (d1 x hx), m2, ?_⟩
            intro m hm
            rcases List.mem_cons.mp hm with rfl | hm2
            · exact ⟨m1 m d2, hstkn, m2 m (m1 m d2) hstkn⟩
            · exact m3 m hm2
    intro v visited stack hvU hv hsub hsafe hfuel vis2 hEq
    rw [dfsVisit] at hEq
    have hselfc : ∀ (y : String) (l : List String),
        (y :: l).contains y = true := by
      intro y l
      rw [List.contains_cons, beq_self_eq_true]
      rfl
    have hconsc : ∀ (y x : String) (l : List String),
        l.contains x = true → (y :: l).contains x = true := by
      intro y x l hx
      rw [List.contains_cons, hx, Bool.or_true]
    have hsub1 : ∀ x, (v :: stack).contains x = true →
        (v :: visited).contains x = true := by
      intro x hx
      rw [List.contains_cons] at hx
      rcases Bool.or_eq_true_iff.mp hx with h1 | h2
      · rw [List.contains_cons, h1]
        rfl
      · exact hconsc v x visited (hsub x h2)
    have hsafe1 : ∀ w, (v :: visited).contains w = true →
        (v :: stack).contains w = false → ¬ ReachesCycle adj w := by
      intro w hw hwstk
      rw [List.contains_cons] at hwstk hw
      have hor := Bool.or_eq_false_iff.mp hwstk
      have hw2 : visited.contains w = true := by
        rcases Bool.or_eq_true_iff.mp hw with h1 | h2
        · rw [hor.1] at h1
          cases h1
        · exact h2
      exact hsafe w hw2 hor.2
    have hfuel1 : UnvisitedCount U (v :: visited) < fuel := by
      have hlt : UnvisitedCount U (v :: visited) < UnvisitedCount U visited :=
        unvisited_lt U v (fun x hx => hconsc v x visited hx) hvU hv
          (hselfc v visited)
      omega
    obtain ⟨m1, m2, m3⟩ := hnbrs (adj v) v (v :: visited) stack
      (fun n hn => hn) hsub1 hsafe1 hfuel1 vis2 hEq
    have hsafev : ¬ ReachesCycle adj v :=
      safe_of_neighbors_safe (fun n hn => (m3 n hn).2.2)
    refine ⟨?_, ?_, ?_⟩
    · intro x hx
      exact m1 x (hconsc v x visited hx)
    · exact m1 v (hselfc v visited)
    · intro w hw hwstk
      by_cases hwv : w = v
      · subst hwv
        exact hsafev
      · have hwsf : (v :: stack).contains w = false := by
          rw [List.contains_cons]
          have h1 : (w == v) = false := beq_false_of_ne hwv
          rw [h1, hwstk]
          rfl
        exact m2 w hw hwsf

theorem detectLoop_some_reaches (adj : String → List String) (fuel : Nat) :
    ∀ (order visited : List String) (r : String),
      detectCycleLoop adj fuel order visited = some r →
      ReachesCycle adj r := by
  intro order
  induction order with
  | nil =>
    intro visited r h
    rw [detectCycleLoop] at h
    cases h
  | cons a rest ih =>
    intro visited r h
    rw [detectCycleLoop] at h
    by_cases hv : visited.contains a = true
    · rw [if_neg (not_not_intro hv)] at h
      exact ih visited r h
    · rw [if_pos hv] at h
      rcases hdv : dfsVisit adj fuel a visited [] with ⟨b, vis⟩
      rw [hdv] at h
      cases b with
      | true =>
        injection h with hr
        subst hr
        have hp : StackPath adj [a] := List.chain'_singleton a
        have hres := dfs_sound_visit adj fuel a visited [] hp (by rw [hdv])
        simpa using hres
      | false => exact ih vis r h

theorem detectLoop_none_safe (adj : String → List String) (U : List String)
    (Hc : ∀ u w, w ∈ adj u → w ∈ U) (fuel : Nat) :
    ∀ (order visited : List String),
      (∀ x ∈ order, x ∈ U) →
      (∀ w, visited.contains w = true → ¬ ReachesCycle adj w) →
      UnvisitedCount U visited < fuel →
      detectCycleLoop adj fuel order visited = none →
      ∀ x ∈ order, ¬ ReachesCycle adj x := by
  intro order
  induction order with
  | nil =>
    intro visited _ _ _ _ x hx
    cases hx
  | cons a rest ih =>
    intro visited hord hsafe hfuel h
    rw [detectCycleLoop] at h
    by_cases hv : visited.contains a = true
    · rw [if_neg (not_not_intro hv)] at h
      intro x hx
      rcases List.mem_cons.mp hx with rfl | hx2
      · exact hsafe x hv
      · exact ih visited (fun y hy => hord y (List.mem_cons_of_mem _ hy))
          hsafe hfuel h x hx2
    · rw [if_pos hv] at h
      rcases hdv : dfsVisit adj fuel a visited [] with ⟨b, vis⟩
      rw [hdv] at h
      cases b with
      | true => cases h
      | false =>
        have hvf : visited.contains a = false := by
          cases hb : visited.contains a
          · rfl
          · exact absurd hb hv
        obtain ⟨d1, d2, d3⟩ := dfs_complete_visit adj U Hc fuel a visited []
          (hord a (List.mem_cons_self a rest)) hvf
          (fun x hx => absurd hx (by simp [List.contains]))
          (fun w hw _ => hsafe w hw) hfuel vis hdv
        have hsafe2 : ∀ w, vis.contains w = true → ¬ ReachesCycle adj w :=
          fun w hw => d3 w hw rfl
        have hfuel2 : UnvisitedCount U vis < fuel :=
          Nat.lt_of_le_of_lt (unvisited_mono U d1) hfuel
        intro x hx
        rcases List.mem_cons.mp hx with rfl | hx2
        · exact hsafe2 x d2
        · exact ih vis (fun y hy => hord y (List.mem_cons_of_mem _ hy))
            hsafe2 hfuel2 h x hx2

/-- Completeness of the outer loop: a cyclic graph whose cycle nodes are
all among the roots makes `validate_tasks`'s detection loop report some
root, and any reported root reaches a cycle. -/
theorem detectLoop_finds_cycle (adj : String → List String) (U : List String)
    (Hc : ∀ u w, w ∈ adj u → w ∈ U) (fuel : Nat) (order : List String)
    (hord : ∀ x ∈ order, x ∈ U)
    (hfuel : UnvisitedCount U [] < fuel)
    (hcyc : HasCycle adj)
    (hcov : ∀ c, Relation.TransGen (EdgeOf adj) c c → c ∈ order) :
    ∃ r, detectCycleLoop adj fuel order [] = some r ∧ ReachesCycle adj r := by
  cases hdet : detectCycleLoop adj fuel order [] with
  | some r =>
    exact ⟨r, rfl, detectLoop_some_reaches adj fuel order [] r hdet⟩
  | none =>
    obtain ⟨c, hcc⟩ := hcyc
    have hsafec := detectLoop_none_safe adj U Hc fuel order []
      hord (fun w hw => absurd hw (by simp [List.contains])) hfuel hdet
      c (hcov c hcc)
    exact absurd ⟨c, Relation.ReflTransGen.refl, hcc⟩ hsafec

theorem adjOf_subset_nodes (tasks : List Task) :
    ∀ u w, w ∈ adjOf tasks u → w ∈ nodesOf tasks := by
  intro u w hw
  rw [adjOf] at hw
  split at hw
  · rename_i t hf
    split at hw
    · rename_i deps hd
      split at hw
      · cases hw
      · have ht : t ∈ tasks := List.mem_of_find?_eq_some hf
        rw [nodesOf]
        refine List.mem_append.mpr (Or.inr ?_)
        rw [List.mem_flatten]
        refine ⟨deps, List.mem_map.mpr ⟨t, ht, ?_⟩, hw⟩
        rw [hd]
        rfl
    · cases hw
  · cases hw

theorem adjOf_nonempty_mem_ids (tasks : List Task) (u : String)
    (h : adjOf tasks u ≠ []) : u ∈ tasks.map (·.id) := by
  rw [adjOf] at h
  split at h
  · rename_i t hf
    have ht : t ∈ tasks := List.mem_of_find?_eq_some hf
    have hid : t.id = u := by
      have := List.find?_some hf
      simpa using this
    exact List.mem_map.mpr ⟨t, ht, hid⟩
  · exact absurd rfl h

/-- Cyclic dependency graphs make `validate_tasks` fail with the cycle
message, naming the first DFS root (in set-iteration order) whose
traversal reaches the cycle. -/
theorem validate_tasks_cycle (tasks : List Task) (order : List String)
    (hdup : (pySetOfList (tasks.map (·.id))).length = tasks.length)
    (hdeps : checkTaskDeps (pySetOfList (tasks.map (·.id))) tasks = .ok ())
    (horder : ∀ x, x ∈ order ↔ x ∈ tasks.map (·.id))
    (hcyc : HasCycle (adjOf tasks)) :
    ∃ r, validate_tasks tasks order
        = .error ("Circular dependency detected in task '" ++ r ++ "'")
      ∧ ReachesCycle (adjOf tasks) r := by
  have hfuel : UnvisitedCount (nodesOf tasks) [] < (nodesOf tasks).length + 1 := by
    have := List.countP_le_length
      (p := fun u => !(List.contains [] u)) (l := nodesOf tasks)
    rw [UnvisitedCount]
    omega
  obtain ⟨r, hdet, hreach⟩ := detectLoop_finds_cycle (adjOf tasks)
    (nodesOf tasks) (adjOf_subset_nodes tasks) ((nodesOf tasks).length + 1)
    order
    (fun x hx => by
      rw [nodesOf]
      exact List.mem_append.mpr (Or.inl ((horder x).mp hx)))
    hfuel hcyc
    (fun c hcc => by
      obtain ⟨x, hx, -⟩ := Relation.TransGen.head'_iff.mp hcc
      have hne : adjOf tasks c ≠ [] := List.ne_nil_of_mem hx
      exact (horder c).mpr (adjOf_nonempty_mem_ids tasks c hne))
  refine ⟨r, ?_, hreach⟩
  rw [validate_tasks]
  rw [if_neg (fun hc => hc hdup)]
  simp only [hdeps, hdet]

theorem validate_task_ok (t : Task) (all_tasks : List Task)
    (h1 : t.id.isEmpty = false) (h2 : (stripStr t.id).isEmpty = false)
    (h3 : t.name.isEmpty = false) (h4 : (stripStr t.name).isEmpty = false)
    (h5 : t.type = "activity" → t.activity_type.isEmpty = false)
    (h6 : ∀ d ∈ t.depends_on.getD [],
      d ∈ all_tasks.map (·.id) ∧ d ≠ t.id) :
    _validate_task t all_tasks = [] := by
  rw [_validate_task]
  rw [h1, h2, h3, h4]
  have e3 : (if t.type = "activity" ∧ t.activity_type.isEmpty = true
      then ["Activity type is required for activity tasks"] else [])
      = ([] : List String) := by
    rw [if_neg]
    rintro ⟨ha, hb⟩
    rw [h5 ha] at hb
    cases hb
  rw [e3]
  have e4 : ((t.depends_on.getD []).map (fun d =>
      (if ¬ (all_tasks.map (·.id)).contains d then
        ["Dependency \x27" ++ d ++ "\x27 does not exist"] else []) ++
      (if d = t.id then ["Task cannot depend on itself"] else []))).flatten
      = [] := by
    rw [List.flatten_eq_nil_iff]
    intro l hl
    obtain ⟨d, hd, hld⟩ := List.mem_map.mp hl
    obtain ⟨hmem, hne⟩ := h6 d hd
    have hc : (all_tasks.map (·.id)).contains d = true := by
      exact List.elem_eq_true_of_mem hmem
    rw [← hld, if_neg (not_not_intro hc), if_neg hne]
    rfl
  rw [e4]
  rfl

theorem validate_ok_of_wellformed (wf : WorkflowDefinition)
    (hname : wf.name.isEmpty = false)
    (hnames : (stripStr wf.name).isEmpty = false)
    (hver : wf.version.isEmpty = false)
    (htasks : wf.tasks.isEmpty = false)
    (hids : (pySetOfList (wf.tasks.map (·.id))).length = wf.tasks.length)
    (hparams : (pySetOfList (wf.parameters.map (·.name))).length
      = wf.parameters.length)
    (htask : ∀ t ∈ wf.tasks,
      t.id.isEmpty = false ∧ (stripStr t.id).isEmpty = false ∧
      t.name.isEmpty = false ∧ (stripStr t.name).isEmpty = false ∧
      (t.type = "activity" → t.activity_type.isEmpty = false) ∧
      (∀ d ∈ t.depends_on.getD [],
        d ∈ wf.tasks.map (·.id) ∧ d ≠ t.id)) :
    WorkflowValidator.validate wf = [] := by
  have he4 : (wf.tasks.map (fun t =>
      (_validate_task t wf.tasks).map
        (fun e => "Task \x27" ++ t.id ++ "\x27: " ++ e))).flatten = [] := by
    rw [List.flatten_eq_nil_iff]
    intro l hl
    obtain ⟨t, ht, hlt⟩ := List.mem_map.mp hl
    obtain ⟨g1, g2, g3, g4, g5, g6⟩ := htask t ht
    rw [← hlt, validate_task_ok t wf.tasks g1 g2 g3 g4 g5 g6]
    rfl
  rw [WorkflowValidator.validate]
  simp [hname, hnames, hver, htasks, hids, hparams, he4]

/-- Cyclic fixture: `a` depends on `b`. -/
def cycTaskA : Task :=
  { id := "a", name := "A", activity_type := "act", depends_on := some ["b"] }

/-- Cyclic fixture: `b` depends on `c`. -/
def cycTaskB : Task :=
  { id := "b", name := "B", activity_type := "act", depends_on := some ["c"] }

/-- Cyclic fixture: `c` depends on `b`, closing the cycle `b → c → b`
that `a` merely points into. -/
def cycTaskC : Task :=
  { id := "c", name := "C", activity_type := "act", depends_on := some ["b"] }

/-- The cyclic task list. -/
def cycTasks : List Task := [cycTaskA, cycTaskB, cycTaskC]

/-- Counterexample to C4 as stated: for the graph `a → b → c → b` (cycle
`b → c → b`, with `a` outside it), admission with set-iteration order
`[a, b, c]` raises "Circular dependency detected in task 'a'" — naming
the DFS *root* `a`, which lies on no cycle — and a structurally clean
workflow with unique IDs and acyclic dependencies but an empty name
still fails `validate`. -/
theorem C4_counterexample :
    validate_tasks cycTasks ["a", "b", "c"]
      = .error "Circular dependency detected in task \x27a\x27"
    ∧ Relation.TransGen (EdgeOf (adjOf cycTasks)) "b" "b"
    ∧ ¬ Relation.TransGen (EdgeOf (adjOf cycTasks)) "a" "a"
    ∧ WorkflowValidator.validate { name := "", tasks := [taskA] }
        = ["Workflow name is required"] := by
  refine ⟨by decide, ?_, ?_, by decide⟩
  · have e1 : EdgeOf (adjOf cycTasks) "b" "c" := by rw [EdgeOf]; decide
    have e2 : EdgeOf (adjOf cycTasks) "c" "b" := by rw [EdgeOf]; decide
    exact Relation.TransGen.head e1 (Relation.TransGen.single e2)
  · intro hcon
    obtain ⟨b, -, hedge⟩ := Relation.TransGen.tail'_iff.mp hcon
    revert hedge
    rw [EdgeOf, adjOf]
    split
    · rename_i t hf
      have ht : t ∈ cycTasks := List.mem_of_find?_eq_some hf
      rw [cycTasks] at ht
      simp only [List.mem_cons, List.not_mem_nil, or_false] at ht
      rcases ht with rfl | rfl | rfl <;> decide
    · exact List.not_mem_nil "a"

/-- **C4 (amended)**: for every workflow whose `depends_on` graph contains
a cycle (given unique IDs and dependency/self checks passing, and the
ID-set iteration enumerating the task IDs), admission (`validate_tasks`,
run at parse time) fails with a `DefinitionError` naming the first DFS
root whose traversal reaches the cycle — a task from which the cycle is
reachable, though not necessarily on the cycle; and every workflow
passing the per-field structural checks (non-empty name/version,
non-empty task IDs and names, `activity_type` present for activity
tasks, dependencies existing and non-self, unique task IDs and
parameter names) — in particular every such acyclic one — yields
`validate = []`. -/
theorem C4_cycle_detection_amended :
    (∀ (tasks : List Task) (order : List String),
      (pySetOfList (tasks.map (·.id))).length = tasks.length →
      checkTaskDeps (pySetOfList (tasks.map (·.id))) tasks = .ok () →
      (∀ x, x ∈ order ↔ x ∈ tasks.map (·.id)) →
      HasCycle (adjOf tasks) →
      ∃ r, validate_tasks tasks order
          = .error ("Circular dependency detected in task \x27" ++ r ++ "\x27")
        ∧ ReachesCycle (adjOf tasks) r)
    ∧ (∀ wf : WorkflowDefinition,
        ¬ HasCycle (adjOf wf.tasks) →
        wf.name.isEmpty = false →
        (stripStr wf.name).isEmpty = false →
        wf.version.isEmpty = false →
        wf.tasks.isEmpty = false →
        (pySetOfList (wf.tasks.map (·.id))).length = wf.tasks.length →
        (pySetOfList (wf.parameters.map (·.name))).length
          = wf.parameters.length →
        (∀ t ∈ wf.tasks,
          t.id.isEmpty = false ∧ (stripStr t.id).isEmpty = false ∧
          t.name.isEmpty = false ∧ (stripStr t.name).isEmpty = false ∧
          (t.type = "activity" → t.activity_type.isEmpty = false) ∧
          (∀ d ∈ t.depends_on.getD [],
            d ∈ wf.tasks.map (·.id) ∧ d ≠ t.id)) →
        WorkflowValidator.validate wf = []) :=
  ⟨validate_tasks_cycle,
   fun wf _ hname hnames hver htasks hids hparams htask =>
     validate_ok_of_wellformed wf hname hnames hver htasks hids hparams htask⟩

/-- In a graph admitting a strictly decreasing rank along edges there is
no cycle. -/
theorem no_cycle_of_rank (adj : String → List String) (f : String → Nat)
    (hf : ∀ u v, EdgeOf adj u v → f v < f u) : ¬ HasCycle adj := by
  rintro ⟨c, hcc⟩
  have hmono : ∀ x y, Relation.TransGen (EdgeOf adj) x y → f y < f x := by
    intro x y h
    induction h with
    | single h1 => exact hf _ _ h1
    | tail hxy hyz ih => exact Nat.lt_trans (hf _ _ hyz) ih
  exact absurd (hmono c c hcc) (Nat.lt_irrefl _)

/-- A decreasing rank for the chain workflow's dependency graph. -/
def chainRank (s : String) : Nat :=
  if s = "b" then 1 else if s = "c" then 2 else 0

theorem chainWorkflow_acyclic : ¬ HasCycle (adjOf chainWorkflow.tasks) := by
  refine no_cycle_of_rank _ chainRank ?_
  intro u v hedge
  rw [EdgeOf, adjOf] at hedge
  split at hedge
  · rename_i t hf2
    have hid : t.id = u := by
      simpa using List.find?_some hf2
    have ht : t ∈ chainWorkflow.tasks := List.mem_of_find?_eq_some hf2
    have ht2 : t = taskA ∨ t = taskB ∨ t = taskC := by
      simpa [chainWorkflow] using ht
    rcases ht2 with rfl | rfl | rfl
    · simp [taskA] at hedge
    · subst hid
      simp only [taskB] at hedge
      simp at hedge
      subst hedge
      decide
    · subst hid
      simp only [taskC] at hedge
      simp at hedge
      subst hedge
      decide
  · cases hedge

/-- Witness for C4 (amended): both clauses at concrete inputs — the cyclic
fixture makes admission fail naming a root that reaches the cycle, and
the acyclic, structurally clean chain workflow validates with no
errors. -/
theorem C4_cycle_detection_amended_witness :
    (∃ r, validate_tasks cycTasks ["a", "b", "c"]
        = .error ("Circular dependency detected in task \x27" ++ r ++ "\x27")
      ∧ ReachesCycle (adjOf cycTasks) r)
    ∧ WorkflowValidator.validate chainWorkflow = [] := by
  constructor
  · refine C4_cycle_detection_amended.1 cycTasks ["a", "b", "c"] rfl rfl
      (fun x => Iff.rfl) ?_
    have e1 : EdgeOf (adjOf cycTasks) "b" "c" := by rw [EdgeOf]; decide
    have e2 : EdgeOf (adjOf cycTasks) "c" "b" := by rw [EdgeOf]; decide
    exact ⟨"b", Relation.TransGen.head e1 (Relation.TransGen.single e2)⟩
  · exact C4_cycle_detection_amended.2 chainWorkflow chainWorkflow_acyclic
      rfl rfl rfl rfl rfl rfl (by decide)

end WorkflowEngine
